import Mathlib

/-!
Verification of the contract-first workflow orchestration core.

The development shallowly embeds the Python sources:
  * `src/tools_v1/shared_state_tools.py` (JSON validator, revision manager,
    shared-state update tools),
  * `src/agents_v1/contract_first_orchestrator.py` (phase state machine,
    error/recovery coordinator, agent handoff logger),
  * `src/utils/artifact_parser.py` and `src/utils/frontend_artifact_parser.py`
    (artifact extraction and materialization).

Python strings are embedded as `List Char`; Python dicts holding JSON data are
embedded as an inductive `JValue` with insertion-order association lists and
dict-style overwrite-on-insert semantics; the process-lifetime
`team_session_state` dict is embedded as an explicit `SharedState` record that
every operation threads through.  Wall-clock timestamps are passed as explicit
parameters.
-/

namespace AgnoFC

/-- ASCII whitespace as recognized by Python `str.strip()` and by `\s` in the
`re` module over ASCII text: space, tab, newline, carriage return, form feed,
vertical tab. -/
def isPyWs (c : Char) : Bool :=
  c = ' ' || c = '\t' || c = '\n' || c = '\r' || c = Char.ofNat 12 || c = Char.ofNat 11

/-- Word characters of the regex class `\w` (ASCII fragment). -/
def isWordChar (c : Char) : Bool :=
  (97 ≤ c.toNat && c.toNat ≤ 122) || (65 ≤ c.toNat && c.toNat ≤ 90) ||
    (48 ≤ c.toNat && c.toNat ≤ 57) || c = '_'

/-- Decimal digit test. -/
def isDigitChar (c : Char) : Bool :=
  48 ≤ c.toNat && c.toNat ≤ 57

/-- Python `str.strip()`: drop whitespace from both ends. -/
def pyStrip (s : List Char) : List Char :=
  ((s.dropWhile isPyWs).reverse.dropWhile isPyWs).reverse

/-- Python `needle in haystack` substring containment. -/
def containsSub (pat : List Char) : List Char → Bool
  | [] => pat.isEmpty
  | c :: rest => pat.isPrefixOf (c :: rest) || containsSub pat rest

/-- Python `text.split(".")`: split at every dot, keeping empty pieces. -/
def splitOnDot : List Char → List (List Char)
  | [] => [[]]
  | c :: rest =>
    if c = '.' then [] :: splitOnDot rest
    else
      match splitOnDot rest with
      | g :: gs => (c :: g) :: gs
      | [] => [[c]]

/-- Value of a digit character. -/
def digitVal (c : Char) : Nat := c.toNat - '0'.toNat

/-- Value of a nonempty all-digit string, most significant first. -/
def digitsVal (ds : List Char) : Nat :=
  ds.foldl (fun acc c => 10 * acc + digitVal c) 0

/-- A nonempty all-digit string's value, else `none`. -/
def decDigits? (ds : List Char) : Option Nat :=
  if ds ≠ [] ∧ ds.all isDigitChar then some (digitsVal ds) else none

/-- Python `int(str)` (model of the stdlib collaborator, restricted to the
ASCII-decimal fragment exercised by this code base: surrounding whitespace, an
optional sign, then one or more decimal digits; digit-group underscores and
non-ASCII digits are outside the model). -/
def pyInt (s : List Char) : Option Int :=
  if (pyStrip s).head? = some '-' then (decDigits? (pyStrip s).tail).map (fun n => -(n : Int))
  else if (pyStrip s).head? = some '+' then (decDigits? (pyStrip s).tail).map (fun n => (n : Int))
  else (decDigits? (pyStrip s)).map (fun n => (n : Int))

/-- Decimal digits of a natural number, most significant first (fuel-based so
the kernel can evaluate it; `natDigits` supplies sufficient fuel). -/
def natDigitsF : Nat → Nat → List Char
  | 0, _ => []
  | fuel + 1, n =>
    if n < 10 then [Char.ofNat ('0'.toNat + n)]
    else natDigitsF fuel (n / 10) ++ [Char.ofNat ('0'.toNat + n % 10)]

/-- Decimal digits of a natural number, most significant first. -/
def natDigits (n : Nat) : List Char := natDigitsF (n + 1) n

/-- Python `str(int)`. -/
def intToStr (i : Int) : List Char :=
  if i < 0 then '-' :: natDigits i.natAbs else natDigits i.toNat

/-- The `{` character (written via its code point). -/
def lbrace : Char := Char.ofNat 123

/-- The `}` character (written via its code point). -/
def rbrace : Char := Char.ofNat 125

/-! ## JSON documents

Python dicts/lists/strings/numbers parsed from JSON are embedded as `JValue`.
Objects are insertion-ordered association lists with dict semantics
(overwrite-on-insert keeps the original key position, as in CPython). -/

inductive JValue where
  | jnull
  | jbool (b : Bool)
  | jnum (n : Int)
  | jstr (s : List Char)
  | jarr (xs : List JValue)
  | jobj (kvs : List (List Char × JValue))

/-- Python `d[k] = v` on a string-keyed dict: overwrite in place or append. -/
def dictInsert {α : Type} (k : List Char) (v : α) :
    List (List Char × α) → List (List Char × α)
  | [] => [(k, v)]
  | (k', v') :: rest =>
    if k' = k then (k', v) :: rest else (k', v') :: dictInsert k v rest

/-- Python `d.get(k)` on a string-keyed dict. -/
def dictGet {α : Type} (k : List Char) : List (List Char × α) → Option α
  | [] => none
  | (k', v') :: rest => if k' = k then some v' else dictGet k rest

/-- Python truthiness of a JSON document: `None`, `{}`, `[]`, `""`, `0` and
`False` are falsy. -/
def jtruthy : Option JValue → Bool
  | none => false
  | some .jnull => false
  | some (.jbool b) => b
  | some (.jnum n) => n ≠ 0
  | some (.jstr s) => !s.isEmpty
  | some (.jarr xs) => !xs.isEmpty
  | some (.jobj kvs) => !kvs.isEmpty

/-! ## `json.loads` (model of the stdlib collaborator)

`json.loads` is the Python standard library, not code of this repository; the
tools call it through `JSONValidator.validate_json_string`.  The model below
implements the strict JSON grammar over the fragment this code base exchanges
(objects, arrays, strings with the standard escapes, integers, literals);
floating-point numbers are rejected by the model (`none`), which is sound for
every claim since no claim exercises non-integer numerics. -/

/-- JSON insignificant whitespace (space, tab, newline, carriage return). -/
def isJsonWs (c : Char) : Bool :=
  c = ' ' || c = '\t' || c = '\n' || c = '\r'

/-- Skip JSON whitespace. -/
def jSkipWs (cs : List Char) : List Char := cs.dropWhile isJsonWs

/-- Hex digit value. -/
def hexVal (c : Char) : Option Nat :=
  if '0' ≤ c ∧ c ≤ '9' then some (c.toNat - '0'.toNat)
  else if 'a' ≤ c ∧ c ≤ 'f' then some (c.toNat - 'a'.toNat + 10)
  else if 'A' ≤ c ∧ c ≤ 'F' then some (c.toNat - 'A'.toNat + 10)
  else none

/-- Single-character JSON string escapes. -/
def jsonEscape (c : Char) : Option Char :=
  if c = '"' then some '"'
  else if c = '\\' then some '\\'
  else if c = '/' then some '/'
  else if c = 'b' then some (Char.ofNat 8)
  else if c = 'f' then some (Char.ofNat 12)
  else if c = 'n' then some '\n'
  else if c = 'r' then some '\r'
  else if c = 't' then some '\t'
  else none

/-- Body of a JSON string after the opening quote: returns the decoded
characters and the remainder after the closing quote. -/
def parseStringBody : List Char → Option (List Char × List Char)
  | [] => none
  | c :: rest =>
    if c = '"' then some ([], rest)
    else if c = '\\' then
      match rest with
      | [] => none
      | e :: rest2 =>
        if e = 'u' then
          match rest2 with
          | h1 :: h2 :: h3 :: h4 :: rest3 =>
            match hexVal h1, hexVal h2, hexVal h3, hexVal h4 with
            | some a, some b, some d, some e' =>
              (parseStringBody rest3).map
                (fun p => (Char.ofNat (((a * 16 + b) * 16 + d) * 16 + e') :: p.1, p.2))
            | _, _, _, _ => none
          | _ => none
        else
          match jsonEscape e with
          | some d => (parseStringBody rest2).map (fun p => (d :: p.1, p.2))
          | none => none
    else if c.toNat < 32 then none
    else (parseStringBody rest).map (fun p => (c :: p.1, p.2))

/-- JSON integer literal (strict grammar: no leading zeros); a following `.`,
`e` or `E` signals a float, which is outside the model. -/
def parseNumber (cs : List Char) : Option (Int × List Char) :=
  let withDigits : List Char → Option (Nat × List Char) := fun ds =>
    let digits := ds.takeWhile isDigitChar
    let rest := ds.drop digits.length
    match digits with
    | [] => none
    | d :: ds' =>
      if d = '0' ∧ ds' ≠ [] then none
      else
        match rest with
        | r :: _ => if r = '.' ∨ r = 'e' ∨ r = 'E' then none else some (digitsVal digits, rest)
        | [] => some (digitsVal digits, rest)
  match cs with
  | '-' :: rest => (withDigits rest).map (fun p => (-(p.1 : Int), p.2))
  | _ => (withDigits cs).map (fun p => ((p.1 : Int), p.2))

mutual

/-- JSON value parser (fuel-based so the kernel can evaluate it). -/
def parseVal : Nat → List Char → Option (JValue × List Char)
  | 0, _ => none
  | fuel + 1, cs =>
    match jSkipWs cs with
    | [] => none
    | c :: rest =>
      if c = lbrace then
        match jSkipWs rest with
        | d :: rest2 =>
          if d = rbrace then some (.jobj [], rest2) else parseMembers fuel (d :: rest2) []
        | [] => none
      else if c = '[' then
        match jSkipWs rest with
        | d :: rest2 =>
          if d = ']' then some (.jarr [], rest2) else parseItems fuel (d :: rest2) []
        | [] => none
      else if c = '"' then
        (parseStringBody rest).map (fun p => (.jstr p.1, p.2))
      else if c = 't' then
        if ['r', 'u', 'e'].isPrefixOf rest then some (.jbool true, rest.drop 3) else none
      else if c = 'f' then
        if ['a', 'l', 's', 'e'].isPrefixOf rest then some (.jbool false, rest.drop 4) else none
      else if c = 'n' then
        if ['u', 'l', 'l'].isPrefixOf rest then some (.jnull, rest.drop 3) else none
      else
        (parseNumber (c :: rest)).map (fun p => (.jnum p.1, p.2))

/-- Members of a JSON object after the opening brace (first member pending). -/
def parseMembers : Nat → List Char → List (List Char × JValue) →
    Option (JValue × List Char)
  | 0, _, _ => none
  | fuel + 1, cs, acc =>
    match jSkipWs cs with
    | c :: rest =>
      if c = '"' then
        match parseStringBody rest with
        | some (key, rest2) =>
          match jSkipWs rest2 with
          | ':' :: rest3 =>
            match parseVal fuel rest3 with
            | some (v, rest4) =>
              let acc' := dictInsert key v acc
              match jSkipWs rest4 with
              | ',' :: rest5 => parseMembers fuel rest5 acc'
              | d :: rest5 => if d = rbrace then some (.jobj acc', rest5) else none
              | [] => none
            | none => none
          | _ => none
        | none => none
      else none
    | [] => none

/-- Items of a JSON array after the opening bracket (first item pending). -/
def parseItems : Nat → List Char → List JValue → Option (JValue × List Char)
  | 0, _, _ => none
  | fuel + 1, cs, acc =>
    match parseVal fuel cs with
    | some (v, rest) =>
      match jSkipWs rest with
      | ',' :: rest2 => parseItems fuel rest2 (acc ++ [v])
      | ']' :: rest2 => some (.jarr (acc ++ [v]), rest2)
      | _ => none
    | none => none

end

/-- Python `json.loads` on a whole document (model of the stdlib
collaborator): the parse must consume the entire input. -/
def json_loads (s : List Char) : Option JValue :=
  match parseVal (2 * s.length + 4) s with
  | some (v, rest) => if jSkipWs rest = [] then some v else none
  | none => none

/-! ## `JSONValidator` (src/tools_v1/shared_state_tools.py) -/

namespace JSONValidator

/-- `JSONValidator.validate_json_string`: strict parse that never raises.  The
source returns a tagged dict `{valid, data, error}`; the model returns
`some data` for valid and `none` for invalid (the error text is a formatted
parse message, not load-bearing for any claim). -/
def validate_json_string (json_string : List Char) : Option JValue :=
  json_loads json_string

/-- The `markdown_indicators` list of `JSONValidator.has_markdown_or_comments`. -/
def markdown_indicators : List (List Char) :=
  ["```".toList, "##".toList, "**".toList, "*".toList, "_".toList,
   "[".toList, "]".toList, "<!--".toList, "//".toList, "#".toList]

/-- `JSONValidator.has_markdown_or_comments`: any indicator substring, or a
stripped text not starting with `{`/`[`, counts as markdown/commentary. -/
def has_markdown_or_comments (text : List Char) : Bool :=
  if markdown_indicators.any (fun ind => containsSub ind text) then true
  else
    match pyStrip text with
    | c :: _ => if c = lbrace ∨ c = '[' then false else true
    | [] => true

end JSONValidator

/-! ## `RevisionManager` (src/tools_v1/shared_state_tools.py) -/

/-- Parsed semantic version; the source represents it as a
`{major, minor, patch}` dict of Python ints. -/
structure Version where
  major : Int
  minor : Int
  patch : Int
deriving DecidableEq, Repr

/-- Strict lexicographic (major, minor, patch) order. -/
def versionLt (a b : Version) : Prop :=
  a.major < b.major ∨ (a.major = b.major ∧
    (a.minor < b.minor ∨ (a.minor = b.minor ∧ a.patch < b.patch)))

instance (a b : Version) : Decidable (versionLt a b) := by
  unfold versionLt; infer_instance

namespace RevisionManager

/-- `RevisionManager.parse_version`: tolerant split-on-dot parse; any
`ValueError`/`IndexError` yields the `{1, 0, 0}` default. -/
def parse_version (version : List Char) : Version :=
  let parts := splitOnDot version
  let p0 := pyInt (parts.getD 0 [])
  let p1 := if parts.length > 1 then pyInt (parts.getD 1 []) else some 0
  let p2 := if parts.length > 2 then pyInt (parts.getD 2 []) else some 0
  match p0, p1, p2 with
  | some a, some b, some c => ⟨a, b, c⟩
  | _, _, _ => ⟨1, 0, 0⟩

/-- The f-string `f"{major}.{minor}.{patch}"`. -/
def formatVersion (v : Version) : List Char :=
  intToStr v.major ++ ('.' :: (intToStr v.minor ++ ('.' :: intToStr v.patch)))

/-- `RevisionManager.increment_version`. -/
def increment_version (current_version change_type : List Char) : List Char :=
  let p := parse_version current_version
  let p' : Version :=
    if change_type = "major".toList ∨ change_type = "planner_regen".toList then
      ⟨p.major + 1, 0, 0⟩
    else if change_type = "minor".toList ∨ change_type = "spec_regen".toList then
      ⟨p.major, p.minor + 1, 0⟩
    else
      ⟨p.major, p.minor, p.patch + 1⟩
  formatVersion p'

/-- Revision audit metadata (`RevisionManager.create_revision_metadata`). -/
structure RevisionMeta where
  timestamp : List Char
  agent : List Char
  change_type : List Char
  description : List Char
  revision_id : List Char
deriving DecidableEq, Repr

/-- `RevisionManager.create_revision_metadata`; `now_iso` stands for
`datetime.now().isoformat()` and `now_epoch` for
`int(datetime.now().timestamp())`. -/
def create_revision_metadata (agent_name change_type description now_iso : List Char)
    (now_epoch : Int) : RevisionMeta :=
  { timestamp := now_iso
    agent := agent_name
    change_type := change_type
    description := description
    revision_id := agent_name ++ '_' :: intToStr now_epoch }

end RevisionManager

/-! ## Shared team state

The Python `team_session_state` dict is embedded as a record.  Keys that the
code always initializes (`create_contract_first_orchestrator`) and that every
read accesses through `.get` with a fixed default are embedded as plain fields,
identifying an absent key with its read default (`"planning"` for
`current_phase`, `[]` for histories); this is observationally equivalent for
every operation modelled here.  The `hasattr(agent, 'team_session_state')`
guard of the tools is modelled as always satisfied (a configured team session
always exists in this system); the guard's else branch performs no state
mutation. -/

/-- One `phase_history` record `{from_phase, to_phase, timestamp,
transition_type}`. -/
structure PhaseRecord where
  from_phase : List Char
  to_phase : List Char
  timestamp : List Char
  transition_type : List Char
deriving DecidableEq, Repr

/-- One `error_history` record. -/
structure ErrorRecord where
  timestamp : List Char
  phase : List Char
  error_type : List Char
  error_message : List Char
  recovery_action : List Char
deriving DecidableEq, Repr

/-- One `handoff_history` record. -/
structure HandoffRecord where
  timestamp : List Char
  from_agent : List Char
  to_agent : List Char
  phase : List Char
  data_included : Bool
deriving DecidableEq, Repr

/-- The shared team state (`team_session_state`). -/
structure SharedState where
  project_plan : Option JValue
  project_plan_updated : Option (List Char)
  project_plan_agent : Option (List Char)
  api_spec : Option JValue
  api_spec_revision : Option (List Char)
  api_spec_history : List RevisionManager.RevisionMeta
  backend_report : Option JValue
  frontend_report : Option JValue
  current_phase : List Char
  workflow_status : List Char
  last_phase_update : Option (List Char)
  phase_history : List PhaseRecord
  error_history : List ErrorRecord
  last_error : Option ErrorRecord
  handoff_history : List HandoffRecord
  last_handoff : Option HandoffRecord

namespace WorkflowPhase

/-! `WorkflowPhase` enum values (the `.value` strings). -/

def PLANNING : List Char := "planning".toList
def SPEC_GENERATION : List Char := "spec_generation".toList
def BACKEND_GENERATION : List Char := "backend_generation".toList
def FRONTEND_GENERATION : List Char := "frontend_generation".toList
def VALIDATION : List Char := "validation".toList
def COMPLETED : List Char := "completed".toList
def ERROR : List Char := "error".toList

end WorkflowPhase

namespace WorkflowStatus

/-! `WorkflowStatus` enum values (the `.value` strings). -/

def INITIALIZED : List Char := "initialized".toList
def IN_PROGRESS : List Char := "in_progress".toList
def WAITING_FOR_INPUT : List Char := "waiting_for_input".toList
def COMPLETED : List Char := "completed".toList
def FAILED : List Char := "failed".toList

end WorkflowStatus

/-! ## Shared-state update tools (src/tools_v1/shared_state_tools.py)

Each tool returns its Python status string together with the new state.  The
`str(e)` detail of a `json.JSONDecodeError` is stdlib-produced text and is
elided from the embedded error messages. -/

/-- `_update_project_plan_core` (the `@tool update_project_plan` wrapper
delegates to it unchanged): validate JSON, reject markdown/commentary, else
replace the stored plan wholesale with timestamp and agent attribution. -/
def _update_project_plan_core (s : SharedState) (agent_name plan_data now : List Char) :
    List Char × SharedState :=
  match JSONValidator.validate_json_string plan_data with
  | none => ("❌ Invalid JSON in project plan: ".toList, s)
  | some data =>
    if JSONValidator.has_markdown_or_comments plan_data then
      ("❌ Project plan contains markdown or comments. JSON only required.".toList, s)
    else
      ("✅ Project plan updated successfully in shared team state".toList,
       { s with
          project_plan := some data
          project_plan_updated := some now
          project_plan_agent := some agent_name })

/-- `_get_project_plan_core`: the stored plan when truthy, else an error.  The
source serializes the plan with `json.dumps(plan, indent=2)`; the model
returns the stored document itself (the stdlib serialization is an injective
presentation detail). -/
def _get_project_plan_core (s : SharedState) : Except (List Char) JValue :=
  if jtruthy s.project_plan then .ok (s.project_plan.getD .jnull)
  else .error "❌ No project plan available in shared state".toList

/-- The accepting tail of `update_api_spec`: increment the revision read from
the stored spec, stamp `revision`/`generated_by`/`updated_at` into the incoming
document, replace the stored spec and append one `api_spec_history` record. -/
def updateApiSpecStore (s : SharedState) (agent_name : List Char)
    (dkvs : List (List Char × JValue)) (revision_type current_revision now_iso : List Char)
    (now_epoch : Int) : List Char × SharedState :=
  let new_revision := RevisionManager.increment_version current_revision revision_type
  let dkvs' :=
    dictInsert "updated_at".toList (.jstr now_iso)
      (dictInsert "generated_by".toList (.jstr agent_name)
        (dictInsert "revision".toList (.jstr new_revision) dkvs))
  let meta := RevisionManager.create_revision_metadata agent_name revision_type
    ("API specification updated to v".toList ++ new_revision) now_iso now_epoch
  ("✅ API specification updated to revision ".toList ++ new_revision ++
      " in shared team state".toList,
    { s with
        api_spec := some (.jobj dkvs')
        api_spec_revision := some new_revision
        api_spec_history := s.api_spec_history ++ [meta] })

/-- `update_api_spec`: validate, then increment the revision read from the
stored spec (default `"1.0.0"`), stamp revision metadata into the document and
replace it, appending one `api_spec_history` record.  `none` models the
uncaught Python exception raised when the stored spec or its `revision` key,
or the incoming document, does not have the expected dict/str shape. -/
def update_api_spec (s : SharedState)
    (agent_name spec_data revision_type now_iso : List Char) (now_epoch : Int) :
    Option (List Char × SharedState) :=
  match JSONValidator.validate_json_string spec_data with
  | none => some ("❌ Invalid JSON in API specification: ".toList, s)
  | some data =>
    if JSONValidator.has_markdown_or_comments spec_data then
      some ("❌ API specification contains markdown or comments. JSON only required.".toList, s)
    else
      match s.api_spec.getD (.jobj []) with
      | .jobj kvs =>
        match data with
        | .jobj dkvs =>
          match dictGet "revision".toList kvs with
          | some (.jstr current_revision) =>
            some (updateApiSpecStore s agent_name dkvs revision_type current_revision
              now_iso now_epoch)
          | none =>
            some (updateApiSpecStore s agent_name dkvs revision_type "1.0.0".toList
              now_iso now_epoch)
          | some _ => none
        | _ => none
      | _ => none

/-- `get_api_spec` (json.dumps presentation elided, as in
`_get_project_plan_core`). -/
def get_api_spec (s : SharedState) : Except (List Char) JValue :=
  if jtruthy s.api_spec then .ok (s.api_spec.getD .jnull)
  else .error "❌ No API specification available in shared state".toList

/-- `update_backend_report`: validate, stamp `updated_at`/`updated_by`,
replace wholesale.  `none` models the exception on a non-dict document. -/
def update_backend_report (s : SharedState) (agent_name report_data now : List Char) :
    Option (List Char × SharedState) :=
  match JSONValidator.validate_json_string report_data with
  | none => some ("❌ Invalid JSON in backend report: ".toList, s)
  | some data =>
    if JSONValidator.has_markdown_or_comments report_data then
      some ("❌ Backend report contains markdown or comments. JSON only required.".toList, s)
    else
      match data with
      | .jobj kvs =>
        let kvs' := dictInsert "updated_by".toList (.jstr agent_name)
          (dictInsert "updated_at".toList (.jstr now) kvs)
        some ("✅ Backend report updated successfully in shared team state".toList,
          { s with backend_report := some (.jobj kvs') })
      | _ => none

/-- `get_backend_report` (json.dumps presentation elided). -/
def get_backend_report (s : SharedState) : Except (List Char) JValue :=
  if jtruthy s.backend_report then .ok (s.backend_report.getD .jnull)
  else .error "❌ No backend report available in shared state".toList

/-- `update_frontend_report`: same validate-then-replace pattern as the
backend report. -/
def update_frontend_report (s : SharedState) (agent_name report_data now : List Char) :
    Option (List Char × SharedState) :=
  match JSONValidator.validate_json_string report_data with
  | none => some ("❌ Invalid JSON in frontend report: ".toList, s)
  | some data =>
    if JSONValidator.has_markdown_or_comments report_data then
      some ("❌ Frontend report contains markdown or comments. JSON only required.".toList, s)
    else
      match data with
      | .jobj kvs =>
        let kvs' := dictInsert "updated_by".toList (.jstr agent_name)
          (dictInsert "updated_at".toList (.jstr now) kvs)
        some ("✅ Frontend report updated successfully in shared team state".toList,
          { s with frontend_report := some (.jobj kvs') })
      | _ => none

/-- `get_frontend_report` (json.dumps presentation elided). -/
def get_frontend_report (s : SharedState) : Except (List Char) JValue :=
  if jtruthy s.frontend_report then .ok (s.frontend_report.getD .jnull)
  else .error "❌ No frontend report available in shared state".toList

/-! ## Workflow state machine (src/agents_v1/contract_first_orchestrator.py) -/

open WorkflowPhase in
/-- The `valid_transitions` table of `transition_workflow_phase`
(`dict.get(current_phase, [])` semantics for unknown phases). -/
def valid_transitions (phase : List Char) : List (List Char) :=
  if phase = PLANNING then [SPEC_GENERATION]
  else if phase = SPEC_GENERATION then [BACKEND_GENERATION, FRONTEND_GENERATION]
  else if phase = BACKEND_GENERATION then [FRONTEND_GENERATION, VALIDATION]
  else if phase = FRONTEND_GENERATION then [VALIDATION, WorkflowPhase.COMPLETED]
  else if phase = VALIDATION then [WorkflowPhase.COMPLETED, PLANNING]
  else if phase = WorkflowPhase.COMPLETED then [PLANNING]
  else if phase = WorkflowPhase.ERROR then [PLANNING, SPEC_GENERATION]
  else []

/-- `transition_workflow_phase`: edge-table check, then per-target
prerequisite checks, then mutate `current_phase`/`workflow_status`/
`last_phase_update` and append one `phase_history` record. -/
def transition_workflow_phase (s : SharedState) (target_phase : List Char)
    (validation_required : Bool) (now : List Char) : List Char × SharedState :=
  if validation_required ∧ target_phase ∉ valid_transitions s.current_phase then
    ("❌ Invalid phase transition from ".toList ++ s.current_phase ++
      " to ".toList ++ target_phase, s)
  else if validation_required ∧ target_phase = WorkflowPhase.SPEC_GENERATION ∧
      ¬ jtruthy s.project_plan then
    ("❌ Cannot transition to spec generation: project plan required".toList, s)
  else if validation_required ∧ target_phase = WorkflowPhase.BACKEND_GENERATION ∧
      ¬ jtruthy s.api_spec then
    ("❌ Cannot transition to backend generation: API specification required".toList, s)
  else if validation_required ∧ target_phase = WorkflowPhase.FRONTEND_GENERATION ∧
      ¬ jtruthy s.api_spec then
    ("❌ Cannot transition to frontend generation: API specification required".toList, s)
  else
    ("✅ Workflow transitioned from ".toList ++ s.current_phase ++
       " to ".toList ++ target_phase,
     { s with
        current_phase := target_phase
        workflow_status := WorkflowStatus.IN_PROGRESS
        last_phase_update := some now
        phase_history := s.phase_history ++
          [{ from_phase := s.current_phase
             to_phase := target_phase
             timestamp := now
             transition_type :=
               if validation_required then "validated".toList else "automatic".toList }] })

/-- `handle_workflow_error`: log one error record, set `workflow_status` to
failed and `last_error`, then apply the recovery action's phase change.  The
rollback branch reads `phase_history[-2] if len(phase_history) > 1 else
phase_history[-1]` (embedded via the reversed list). -/
def handle_workflow_error (s : SharedState)
    (error_type error_message recovery_action now : List Char) :
    List Char × SharedState :=
  let current_phase := s.current_phase
  let entry : ErrorRecord :=
    { timestamp := now
      phase := current_phase
      error_type := error_type
      error_message := error_message
      recovery_action := recovery_action }
  let s1 := { s with
    error_history := s.error_history ++ [entry]
    workflow_status := WorkflowStatus.FAILED
    last_error := some entry }
  let base := "❌ Workflow Error in ".toList ++ current_phase ++ ":\n".toList ++
    "Error Type: ".toList ++ error_type ++ "\n".toList ++
    "Message: ".toList ++ error_message ++ "\n\n".toList
  if recovery_action = "retry".toList then
    (base ++ "🔄 Recovery Action: Retry current phase\n".toList ++
      "Next Step: Re-execute current phase agent with same inputs".toList, s1)
  else if recovery_action = "regenerate".toList then
    if error_type = "validation_failure".toList then
      (base ++ "🔄 Recovery Action: Regenerate API specification\n".toList ++
        "Next Step: ApiSpecGenerator will create new specification".toList,
       { s1 with current_phase := WorkflowPhase.SPEC_GENERATION })
    else
      (base ++ "🔄 Recovery Action: Regenerate from planning phase\n".toList ++
        "Next Step: Planner will create updated project plan".toList,
       { s1 with current_phase := WorkflowPhase.PLANNING })
  else if recovery_action = "rollback".toList then
    match s.phase_history.reverse with
    | [] =>
      (base ++ "🔄 Recovery Action: Rollback to planning phase\n".toList ++
        "Next Step: Start workflow from beginning".toList,
       { s1 with current_phase := WorkflowPhase.PLANNING })
    | [only] =>
      (base ++ "🔄 Recovery Action: Rollback to ".toList ++ only.from_phase ++
        "\n".toList ++ "Next Step: Resume from last successful phase".toList,
       { s1 with current_phase := only.from_phase })
    | _ :: second_last :: _ =>
      (base ++ "🔄 Recovery Action: Rollback to ".toList ++ second_last.from_phase ++
        "\n".toList ++ "Next Step: Resume from last successful phase".toList,
       { s1 with current_phase := second_last.from_phase })
  else
    (base, s1)

/-- `coordinate_agent_handoff`: always append one `handoff_history` record;
validate a truthy payload, rejecting the handoff on invalid JSON; on
acceptance set `last_handoff` and `workflow_status`. -/
def coordinate_agent_handoff (s : SharedState)
    (from_agent to_agent : List Char) (handoff_data : Option (List Char))
    (now : List Char) : List Char × SharedState :=
  let entry : HandoffRecord :=
    { timestamp := now
      from_agent := from_agent
      to_agent := to_agent
      phase := s.current_phase
      data_included := handoff_data.isSome }
  let s1 := { s with handoff_history := s.handoff_history ++ [entry] }
  let accept : List Char × SharedState :=
    ("✅ Agent handoff completed: ".toList ++ from_agent ++ " → ".toList ++ to_agent,
     { s1 with last_handoff := some entry, workflow_status := WorkflowStatus.IN_PROGRESS })
  match handoff_data with
  | some dta =>
    if dta ≠ [] then
      match JSONValidator.validate_json_string dta with
      | none => ("❌ Handoff failed: Invalid JSON data from ".toList ++ from_agent, s1)
      | some _ => accept
    else accept
  | none => accept

/-- The accepting tail of `manage_api_spec_revision`: bump the stored spec's
revision in place, append one `api_spec_history` record, and reset
`current_phase` for major/minor-class changes. -/
def manageApiSpecStore (s : SharedState) (kvs : List (List Char × JValue))
    (change_type description current_revision now_iso : List Char) (now_epoch : Int) :
    List Char × SharedState :=
  let new_revision := RevisionManager.increment_version current_revision change_type
  let kvs' :=
    dictInsert "change_description".toList (.jstr description)
      (dictInsert "updated_at".toList (.jstr now_iso)
        (dictInsert "revision".toList (.jstr new_revision) kvs))
  let meta := RevisionManager.create_revision_metadata
    "ContractFirstOrchestrator".toList change_type description now_iso now_epoch
  let phase' :=
    if change_type = "major".toList ∨ change_type = "planner_regen".toList then
      WorkflowPhase.PLANNING
    else if change_type = "minor".toList ∨ change_type = "spec_regen".toList then
      WorkflowPhase.SPEC_GENERATION
    else s.current_phase
  let regeneration_msg :=
    if change_type = "major".toList ∨ change_type = "planner_regen".toList then
      "🔄 Major revision triggered - workflow reset to planning phase".toList
    else if change_type = "minor".toList ∨ change_type = "spec_regen".toList then
      "🔄 Minor revision triggered - workflow reset to spec generation phase".toList
    else
      "📝 Patch revision - no workflow reset required".toList
  ("✅ API specification updated to revision ".toList ++ new_revision ++
      "\n".toList ++ regeneration_msg,
    { s with
        api_spec := some (.jobj kvs')
        api_spec_revision := some new_revision
        api_spec_history := s.api_spec_history ++ [meta]
        current_phase := phase' })

/-- `manage_api_spec_revision`: reject when no truthy spec is stored, else bump
its revision in place (`none` models the exception on a stored spec or
revision of unexpected shape). -/
def manage_api_spec_revision (s : SharedState)
    (change_type description now_iso : List Char) (now_epoch : Int) :
    Option (List Char × SharedState) :=
  if ¬ jtruthy s.api_spec then
    some ("❌ Cannot manage revision: No API specification in shared state".toList, s)
  else
    match s.api_spec with
    | some (.jobj kvs) =>
      match dictGet "revision".toList kvs with
      | some (.jstr current_revision) =>
        some (manageApiSpecStore s kvs change_type description current_revision
          now_iso now_epoch)
      | none =>
        some (manageApiSpecStore s kvs change_type description "1.0.0".toList
          now_iso now_epoch)
      | some _ => none
    | _ => none

/-! ## Artifact extraction (src/utils/artifact_parser.py)

`extract_code_artifacts` scans with
`re.finditer(r'<codeartifact\s+([^>]+)>([\s\S]*?)</codeartifact>', text,
re.IGNORECASE)`.  The scan below reproduces the engine's leftmost
non-overlapping semantics: at each position, the literal tag
(case-insensitive), one whitespace-plus-attribute region of length at least
two ending at the first `>` (the greedy `\s+`/`[^>]+` split puts at least one
character in group 1), then the lazy content up to the first case-insensitive
closing tag.  When zero artifacts are found the source only logs diagnostics
and still returns the empty list. -/

/-- Case-insensitive character comparison (`re.IGNORECASE`, ASCII fragment). -/
def lcEq (a b : Char) : Bool := a.toLower = b.toLower

/-- Case-insensitive literal prefix match, returning the remainder. -/
def ciPrefix : List Char → List Char → Option (List Char)
  | [], s => some s
  | _ :: _, [] => none
  | p :: ps, c :: cs => if lcEq p c then ciPrefix ps cs else none

/-- The literal opening-tag prefix `<codeartifact`. -/
def openTag : List Char := "<codeartifact".toList

/-- The literal closing tag `</codeartifact>`. -/
def closeTag : List Char := "</codeartifact>".toList

/-- Split the input at the first case-insensitive occurrence of the closing
tag: content before it and remainder after it (the lazy `([\s\S]*?)`). -/
def splitAtClose : List Char → Option (List Char × List Char)
  | [] => none
  | c :: cs' =>
    match ciPrefix closeTag (c :: cs') with
    | some rest => some ([], rest)
    | none => (splitAtClose cs').map (fun p => (c :: p.1, p.2))

/-- One attempt of the artifact regex at the current position: after the
literal tag, the region up to the first `>` must start with a whitespace
character and have length at least two (`\s+[^>]+`); group 1 starts after the
maximal whitespace run, backing up one character when that run covers the
whole region.  Returns (attribute group, raw content group, remainder after
the closing tag). -/
def tryMatch (cs : List Char) : Option (List Char × List Char × List Char) :=
  match ciPrefix openTag cs with
  | none => none
  | some r1 =>
    let region := r1.takeWhile (fun d => d ≠ '>')
    if (region.head?.elim false isPyWs) && decide (2 ≤ region.length) then
      match r1.drop region.length with
      | '>' :: afterGt =>
        let k := (region.takeWhile isPyWs).length
        let attrs := region.drop (min k (region.length - 1))
        (splitAtClose afterGt).map (fun p => (attrs, p.1, p.2))
      | _ => none
    else none

/-- Leftmost non-overlapping scan for artifact tags (fuel-based). -/
def scanArtifactsF : Nat → List Char → List (List Char × List Char)
  | 0, _ => []
  | fuel + 1, cs =>
    match tryMatch cs with
    | some (attrs, content, rest) => (attrs, content) :: scanArtifactsF fuel rest
    | none =>
      match cs with
      | [] => []
      | _ :: cs' => scanArtifactsF fuel cs'

/-- All (attributes, raw content) matches of the artifact regex, in order. -/
def scanArtifacts (cs : List Char) : List (List Char × List Char) :=
  scanArtifactsF (cs.length + 1) cs

/-- The attribute scan `re.finditer(r'(\w+)="([^"]+)"', attributes_str)`:
a maximal nonempty word run, `="`, a nonempty quote-free value, `"`. -/
def parseAttrsF : Nat → List Char → List (List Char × List Char)
  | 0, _ => []
  | fuel + 1, cs =>
    let w := cs.takeWhile isWordChar
    let giveUp : List (List Char × List Char) :=
      match cs with
      | [] => []
      | _ :: cs' => parseAttrsF fuel cs'
    match w, cs.drop w.length with
    | _ :: _, '=' :: '"' :: rest2 =>
      let v := rest2.takeWhile (fun c => c ≠ '"')
      match v, rest2.drop v.length with
      | _ :: _, '"' :: rest3 => (w, v) :: parseAttrsF fuel rest3
      | _, _ => giveUp
    | _, _ => giveUp

/-- Attribute pairs collected into a Python dict (later duplicates win). -/
def attrsToDict (attrs : List Char) : List (List Char × List Char) :=
  (parseAttrsF (attrs.length + 1) attrs).foldl (fun d p => dictInsert p.1 p.2 d) []

/-- `CodeArtifact` dataclass of src/utils/artifact_parser.py. -/
structure CodeArtifact where
  type : List Char
  filename : List Char
  purpose : List Char
  dependencies : Option (List Char)
  complexity : List Char
  content : List Char
deriving DecidableEq, Repr

/-- `extract_code_artifacts`: every regex match becomes one artifact, in match
order; the content group is `.strip()`ped; attribute defaults as in the
source. -/
def extract_code_artifacts (response_text : List Char) : List CodeArtifact :=
  (scanArtifacts response_text).map (fun p =>
    let attrs := attrsToDict p.1
    { type := (dictGet "type".toList attrs).getD "text".toList
      filename := (dictGet "filename".toList attrs).getD "unknown".toList
      purpose := (dictGet "purpose".toList attrs).getD "unknown".toList
      dependencies := dictGet "dependencies".toList attrs
      complexity := (dictGet "complexity".toList attrs).getD "simple".toList
      content := pyStrip p.2 })

/-! ## Artifact materialization (src/utils/artifact_parser.py)

The filesystem collaborator is embedded as a path-to-content map; directory
creation (`os.makedirs(..., exist_ok=True)`) is a no-op on this map, and the
per-artifact `try/except` isolation has no failing case in the pure model. -/

/-- A filesystem as a map from path to file content. -/
abbrev FileSystem := List (List Char × List Char)

/-- Write (create or overwrite) one file. -/
def fsWrite (fs : FileSystem) (path content : List Char) : FileSystem :=
  dictInsert path content fs

/-- Read one file. -/
def fsRead (fs : FileSystem) (path : List Char) : Option (List Char) :=
  dictGet path fs

/-- `os.path.join(base, fn)` (POSIX model: an absolute second component
discards the first). -/
def pyPathJoin (base fn : List Char) : List Char :=
  if fn.head? = some '/' then fn
  else if base = [] then fn
  else if base.getLast? = some '/' then base ++ fn
  else base ++ '/' :: fn

/-- `save_artifacts_to_files`: write each artifact in input order to
`base_path/filename`, collecting the created paths. -/
def save_artifacts_to_files (artifacts : List CodeArtifact) (base_path : List Char)
    (fs : FileSystem) : List (List Char) × FileSystem :=
  artifacts.foldl
    (fun acc a =>
      let file_path := pyPathJoin base_path a.filename
      (acc.1 ++ [file_path], fsWrite acc.2 file_path a.content))
    ([], fs)

/-! ## Frontend markdown cleaning (src/utils/frontend_artifact_parser.py)

`clean_markdown_content` applies four `re.sub(..., '', content,
flags=re.MULTILINE)` passes and a final `.strip()`:
  1. `^````?\w*\s*\n?`   2. `^```\w*\s*\n?`
  3. `\n?````?\s*$`      4. `\n?```\s*$`
With MULTILINE, `^` matches after every newline and `$` before every newline,
so the passes fire on every line of the content, not only at its edges. -/

/-- A match of `````?\w*\s*\n?` (or with `allowFour := false`, of
`` ```\w*\s*\n? ``) at the current position: returns the remainder after the
matched span.  The trailing `\n?` is subsumed by the greedy `\s*`. -/
def fenceOpenMatch (allowFour : Bool) (cs : List Char) : Option (List Char) :=
  match cs with
  | '`' :: '`' :: '`' :: rest =>
    let rest1 :=
      if allowFour then
        match rest with
        | '`' :: r4 => r4
        | _ => rest
      else rest
    let rest2 := rest1.drop (rest1.takeWhile isWordChar).length
    some (rest2.drop (rest2.takeWhile isPyWs).length)
  | _ => none

/-- The substitution scan for the line-start fence patterns: at every
line-start position try `fenceOpenMatch`, drop the matched span, and continue
after it (re.sub's non-overlapping leftmost semantics). -/
def subOpenF (allowFour : Bool) : Nat → Bool → List Char → List Char
  | 0, _, cs => cs
  | fuel + 1, atStart, cs =>
    match cs with
    | [] => []
    | c :: cs' =>
      match (if atStart then fenceOpenMatch allowFour cs else none) with
      | some rest =>
        let consumed := cs.take (cs.length - rest.length)
        subOpenF allowFour fuel (consumed.getLast? = some '\n') rest
      | none => c :: subOpenF allowFour fuel (c = '\n') cs'

/-- Index of the last `'\n'` in a character run, if any. -/
def lastNewlineIdx (ws : List Char) : Option Nat :=
  (ws.reverse.findIdx? (fun c => c = '\n')).map (fun i => ws.length - 1 - i)

/-- The `\s*$` resolution under MULTILINE: the greedy `\s*` stops at the
latest position that is the end of input or immediately before a newline;
returns the remainder (which then starts at that `$` position). -/
def fenceCloseTail (r : List Char) : Option (List Char) :=
  let ws := r.takeWhile isPyWs
  if r.drop ws.length = [] then some []
  else (lastNewlineIdx ws).map (fun k => r.drop k)

/-- A match of `````?\s*$` (or `` ```\s*$ ``) at the current position:
greedy four-backtick attempt first, then the three-backtick fallback. -/
def fenceCloseCore (allowFour : Bool) (s : List Char) : Option (List Char) :=
  match s with
  | '`' :: '`' :: '`' :: rest =>
    if allowFour then
      match rest with
      | '`' :: r4 =>
        match fenceCloseTail r4 with
        | some out => some out
        | none => fenceCloseTail rest
      | _ => fenceCloseTail rest
    else fenceCloseTail rest
  | _ => none

/-- A match of `\n?````?\s*$` (or `\n?```\s*$`) at the current position:
the optional newline is consumed only when the backticks follow it (the
fallback without it cannot succeed at a newline). -/
def fenceCloseMatch (allowFour : Bool) (cs : List Char) : Option (List Char) :=
  match cs with
  | '\n' :: rest => fenceCloseCore allowFour rest
  | _ => fenceCloseCore allowFour cs

/-- The substitution scan for the line-end fence patterns. -/
def subCloseF (allowFour : Bool) : Nat → List Char → List Char
  | 0, cs => cs
  | fuel + 1, cs =>
    match cs with
    | [] => []
    | c :: cs' =>
      match fenceCloseMatch allowFour cs with
      | some rest => subCloseF allowFour fuel rest
      | none => c :: subCloseF allowFour fuel cs'

/-- `clean_markdown_content`: the four MULTILINE substitutions followed by
`.strip()`. -/
def clean_markdown_content (content : List Char) : List Char :=
  let c1 := subOpenF true (content.length + 1) true content
  let c2 := subOpenF false (c1.length + 1) true c1
  let c3 := subCloseF true (c2.length + 1) c2
  let c4 := subCloseF false (c3.length + 1) c3
  pyStrip c4

/-! ## Derived notions used by the statements below -/

/-- The initial `team_session_state` configured by
`create_contract_first_orchestrator` (keys this embedding does not model,
`validation_reports` and `contract_compliance_status`, are touched by no
modelled operation). -/
def initialTeamState (now : List Char) : SharedState :=
  { project_plan := some (.jobj [])
    project_plan_updated := none
    project_plan_agent := none
    api_spec := some (.jobj [])
    api_spec_revision := some "1.0.0".toList
    api_spec_history := []
    backend_report := some (.jobj [])
    frontend_report := some (.jobj [])
    current_phase := WorkflowPhase.PLANNING
    workflow_status := WorkflowStatus.INITIALIZED
    last_phase_update := some now
    phase_history := []
    error_history := []
    last_error := none
    handoff_history := []
    last_handoff := none }

/-- A status message of the tools counts as accepted exactly when it carries
the success marker (every rejection message of the modelled operations starts
with the failure marker instead). -/
def isOkMsg (msg : List Char) : Bool := msg.head? = some '✅'

/-- The revision string the next `update_api_spec` call will read from the
state: `state.get("api_spec", {}).get("revision", "1.0.0")`, `none` when that
read would raise in Python. -/
def storedRevision (s : SharedState) : Option (List Char) :=
  match s.api_spec.getD (.jobj []) with
  | .jobj kvs =>
    match dictGet "revision".toList kvs with
    | some (.jstr r) => some r
    | none => some "1.0.0".toList
    | some _ => none
  | _ => none

/-- One `update_api_spec` call's explicit arguments. -/
structure ApiSpecCall where
  agent_name : List Char
  spec_data : List Char
  revision_type : List Char
  now_iso : List Char
  now_epoch : Int
deriving DecidableEq, Repr

/-- Run a sequence of `update_api_spec` calls, requiring every call to be
accepted, and collect the stored `api_spec_revision` after each call. -/
def runApiSpecUpdates (s : SharedState) :
    List ApiSpecCall → Option (SharedState × List (List Char))
  | [] => some (s, [])
  | c :: cs =>
    match update_api_spec s c.agent_name c.spec_data c.revision_type c.now_iso c.now_epoch with
    | none => none
    | some (msg, s') =>
      if isOkMsg msg then
        (runApiSpecUpdates s' cs).map
          (fun p => (p.1, (s'.api_spec_revision.getD []) :: p.2))
      else none

/-- The rejection condition of `transition_workflow_phase` with validation
enabled: illegal edge, or missing prerequisite document of the target. -/
def transitionRejected (s : SharedState) (target_phase : List Char) : Prop :=
  target_phase ∉ valid_transitions s.current_phase ∨
  (target_phase = WorkflowPhase.SPEC_GENERATION ∧ jtruthy s.project_plan = false) ∨
  ((target_phase = WorkflowPhase.BACKEND_GENERATION ∨
      target_phase = WorkflowPhase.FRONTEND_GENERATION) ∧ jtruthy s.api_spec = false)

instance (s : SharedState) (t : List Char) : Decidable (transitionRejected s t) := by
  unfold transitionRejected; infer_instance

/-- All four history lists of `s'` extend those of `s` (existing entries kept,
in place, new entries appended at the end). -/
def extendsHistories (s s' : SharedState) : Prop :=
  (∃ t, s'.phase_history = s.phase_history ++ t) ∧
  (∃ t, s'.error_history = s.error_history ++ t) ∧
  (∃ t, s'.handoff_history = s.handoff_history ++ t) ∧
  (∃ t, s'.api_spec_history = s.api_spec_history ++ t)

/-- Whether a text contains a fenced-code marker (three consecutive
backticks) anywhere. -/
def hasFence (cs : List Char) : Bool := containsSub "```".toList cs

/-- One well-formed artifact segment with a `filename` attribute:
`<codeartifact filename="fn">content</codeartifact>`. -/
def mkArtifactText (fn content : List Char) : List Char :=
  openTag ++
    ((' ' :: ("filename=\"".toList ++ (fn ++ ['"']))) ++
      ('>' :: (content ++ closeTag)))

/-- A response text interleaving separators and artifact segments:
`sep₀ seg₁ sep₁ … segₙ sepₙ`. -/
def mkArtifactBlob : List (List Char × List Char) → List (List Char) → List Char
  | [], [] => []
  | [], sep :: _ => sep
  | (fn, c) :: fs, [] => mkArtifactText fn c ++ mkArtifactBlob fs []
  | (fn, c) :: fs, sep :: seps => sep ++ mkArtifactText fn c ++ mkArtifactBlob fs seps

/-- Well-formedness of one (filename, content) pair for the round-trip
statement: a nonempty relative filename free of `"`/`>`, and a content free of
`<` (so it cannot contain or disturb any tag). -/
def goodFile (p : List Char × List Char) : Prop :=
  p.1 ≠ [] ∧ p.1.head? ≠ some '/' ∧ (∀ ch ∈ p.1, ch ≠ '"' ∧ ch ≠ '>') ∧
    ∀ ch ∈ p.2, ch ≠ '<'

/-- Initial state of the concrete revision-sequence run. -/
def c3s0 : SharedState := initialTeamState "t0".toList

/-- A concrete two-call `update_api_spec` sequence (minor then major). -/
def c3calls : List ApiSpecCall :=
  [{ agent_name := "ApiSpecGenerator".toList
     spec_data := "\x7b\"a\":1\x7d".toList
     revision_type := "minor".toList
     now_iso := "t1".toList
     now_epoch := 1 },
   { agent_name := "ApiSpecGenerator".toList
     spec_data := "\x7b\"b\":2\x7d".toList
     revision_type := "major".toList
     now_iso := "t2".toList
     now_epoch := 2 }]

/-- The state after running `c3calls` from `c3s0`. -/
def c3WitnessState : SharedState :=
  ((runApiSpecUpdates c3s0 c3calls).getD (c3s0, [])).1

/-! # Helper lemmas -/

lemma digitsVal_append_digit (xs : List Char) (d : Char) :
    digitsVal (xs ++ [d]) = 10 * digitsVal xs + digitVal d := by
  simp [digitsVal, List.foldl_append]

lemma digitChar_spec {m : Nat} (h : m < 10) :
    isDigitChar (Char.ofNat (48 + m)) = true ∧
    digitVal (Char.ofNat (48 + m)) = m := by
  interval_cases m <;> exact ⟨by decide, by decide⟩

lemma natDigitsF_spec : ∀ fuel n, n < fuel →
    (∀ c ∈ natDigitsF fuel n, isDigitChar c = true) ∧
    natDigitsF fuel n ≠ [] ∧ digitsVal (natDigitsF fuel n) = n := by
  intro fuel
  induction fuel with
  | zero => intro n h; omega
  | succ f ih =>
    intro n h
    by_cases h10 : n < 10
    · refine ⟨?_, by simp [natDigitsF, if_pos h10], ?_⟩
      · intro c hc
        simp [natDigitsF, if_pos h10] at hc
        subst hc
        exact (digitChar_spec h10).1
      · simp [natDigitsF, if_pos h10, digitsVal, (digitChar_spec h10).2]
    · have hd : n / 10 < f := by omega
      obtain ⟨hall, hne, hval⟩ := ih (n / 10) hd
      have hm : n % 10 < 10 := Nat.mod_lt _ (by norm_num)
      refine ⟨?_, by simp [natDigitsF, if_neg h10], ?_⟩
      · intro c hc
        simp only [natDigitsF, if_neg h10, List.mem_append, List.mem_singleton] at hc
        rcases hc with hc | hc
        · exact hall c hc
        · subst hc; exact (digitChar_spec hm).1
      · simp only [natDigitsF, if_neg h10]
        rw [digitsVal_append_digit, hval]
        have h048 : '0'.toNat = 48 := rfl
        rw [h048, (digitChar_spec hm).2]
        omega

lemma natDigits_spec (n : Nat) :
    (∀ c ∈ natDigits n, isDigitChar c = true) ∧
    natDigits n ≠ [] ∧ digitsVal (natDigits n) = n :=
  natDigitsF_spec (n + 1) n (Nat.lt_succ_self n)

lemma dropWhile_eq_self_of_all {p : Char → Bool} {xs : List Char}
    (h : ∀ c ∈ xs, p c = false) : xs.dropWhile p = xs := by
  cases xs with
  | nil => rfl
  | cons a l => simp [List.dropWhile_cons, h a (by simp)]

lemma pyStrip_eq_self {xs : List Char} (h : ∀ c ∈ xs, isPyWs c = false) :
    pyStrip xs = xs := by
  unfold pyStrip
  rw [dropWhile_eq_self_of_all h, dropWhile_eq_self_of_all (by
    intro c hc; exact h c (List.mem_reverse.mp hc)), List.reverse_reverse]

lemma not_ws_of_digit {c : Char} (h : isDigitChar c = true) : isPyWs c = false := by
  simp only [isDigitChar, Bool.and_eq_true, decide_eq_true_eq] at h
  simp only [isPyWs, Bool.or_eq_false_iff, decide_eq_false_iff_not]
  refine ⟨⟨⟨⟨⟨?_, ?_⟩, ?_⟩, ?_⟩, ?_⟩, ?_⟩ <;>
    (intro he; rw [he] at h; exact absurd h (by decide))

lemma decDigits?_natDigits (n : Nat) : decDigits? (natDigits n) = some n := by
  obtain ⟨hall, hne, hval⟩ := natDigits_spec n
  unfold decDigits?
  rw [if_pos ⟨hne, List.all_eq_true.mpr (fun c hc => hall c hc)⟩, hval]

lemma pyInt_intToStr (i : Int) : pyInt (intToStr i) = some i := by
  obtain ⟨hall, hne, _⟩ := natDigits_spec i.natAbs
  by_cases hneg : i < 0
  · have hform : intToStr i = '-' :: natDigits i.natAbs := by
      unfold intToStr; rw [if_pos hneg]
    have hstrip : pyStrip ('-' :: natDigits i.natAbs) = '-' :: natDigits i.natAbs := by
      refine pyStrip_eq_self ?_
      intro c hc
      rcases List.mem_cons.mp hc with hc | hc
      · subst hc; decide
      · exact not_ws_of_digit (hall c hc)
    rw [hform]
    unfold pyInt
    rw [hstrip]
    simp only [List.head?_cons, List.tail_cons, if_true]
    rw [decDigits?_natDigits]
    show some (-((i.natAbs : Nat) : Int)) = some i
    simp only [Option.some.injEq]
    omega
  · have hform : intToStr i = natDigits i.toNat := by
      unfold intToStr; rw [if_neg hneg]
    obtain ⟨hall2, hne2, _⟩ := natDigits_spec i.toNat
    obtain ⟨c, ds, hcd⟩ := List.exists_cons_of_ne_nil hne2
    have hdc : isDigitChar c = true := hall2 c (by rw [hcd]; simp)
    have hcm : c ≠ '-' := by intro he; subst he; exact absurd hdc (by decide)
    have hcp : c ≠ '+' := by intro he; subst he; exact absurd hdc (by decide)
    have hstrip : pyStrip (natDigits i.toNat) = natDigits i.toNat := by
      refine pyStrip_eq_self ?_
      intro x hx
      exact not_ws_of_digit (hall2 x hx)
    rw [hform]
    unfold pyInt
    rw [hstrip, hcd]
    simp only [List.head?_cons, List.tail_cons]
    rw [if_neg (by simp [hcm]), if_neg (by simp [hcp]), ← hcd, decDigits?_natDigits]
    show some (((i.toNat : Nat) : Int)) = some i
    simp only [Option.some.injEq]
    omega

lemma splitOnDot_no_dot {xs : List Char} (h : '.' ∉ xs) : splitOnDot xs = [xs] := by
  induction xs with
  | nil => rfl
  | cons c l ih =>
    have hc : c ≠ '.' := fun he => h (he ▸ List.mem_cons_self c l)
    have hl : '.' ∉ l := fun hm => h (List.mem_cons_of_mem c hm)
    simp only [splitOnDot, if_neg hc, ih hl]

lemma splitOnDot_append {xs ys : List Char} (h : '.' ∉ xs) :
    splitOnDot (xs ++ '.' :: ys) = xs :: splitOnDot ys := by
  induction xs with
  | nil => simp [splitOnDot]
  | cons c l ih =>
    have hc : c ≠ '.' := fun he => h (he ▸ List.mem_cons_self c l)
    have hl : '.' ∉ l := fun hm => h (List.mem_cons_of_mem c hm)
    simp only [List.cons_append, splitOnDot, if_neg hc, List.append_eq]
    rw [ih hl]

lemma no_dot_intToStr (i : Int) : '.' ∉ intToStr i := by
  intro hm
  unfold intToStr at hm
  split at hm
  · rcases List.mem_cons.mp hm with hm | hm
    · exact absurd hm (by decide)
    · have := (natDigits_spec i.natAbs).1 '.' hm
      revert this; decide
  · have := (natDigits_spec i.toNat).1 '.' hm
    revert this; decide

lemma parse_version_format (v : Version) :
    RevisionManager.parse_version (RevisionManager.formatVersion v) = v := by
  unfold RevisionManager.formatVersion RevisionManager.parse_version
  dsimp only
  rw [splitOnDot_append (no_dot_intToStr v.major),
    splitOnDot_append (no_dot_intToStr v.minor),
    splitOnDot_no_dot (no_dot_intToStr v.patch)]
  simp only [List.getD, List.get?_cons_zero, List.get?_cons_succ, Option.getD_some,
    pyInt_intToStr, List.length_cons, List.length_nil]
  norm_num

lemma parse_increment (cur ct : List Char) :
    RevisionManager.parse_version (RevisionManager.increment_version cur ct) =
      (if ct = "major".toList ∨ ct = "planner_regen".toList then
        ⟨(RevisionManager.parse_version cur).major + 1, 0, 0⟩
      else if ct = "minor".toList ∨ ct = "spec_regen".toList then
        ⟨(RevisionManager.parse_version cur).major,
          (RevisionManager.parse_version cur).minor + 1, 0⟩
      else
        ⟨(RevisionManager.parse_version cur).major,
          (RevisionManager.parse_version cur).minor,
          (RevisionManager.parse_version cur).patch + 1⟩ : Version) := by
  unfold RevisionManager.increment_version
  split
  · rw [parse_version_format]
  · split
    · rw [parse_version_format]
    · rw [parse_version_format]

lemma versionLt_increment (cur ct : List Char) :
    versionLt (RevisionManager.parse_version cur)
      (RevisionManager.parse_version (RevisionManager.increment_version cur ct)) := by
  rw [parse_increment]
  unfold versionLt
  split
  · dsimp only
    omega
  · split
    · dsimp only
      omega
    · dsimp only
      omega

lemma versionLt_trans {a b c : Version} (h1 : versionLt a b) (h2 : versionLt b c) :
    versionLt a c := by
  unfold versionLt at *
  omega

lemma dictGet_insert_self {α : Type} (k : List Char) (v : α)
    (d : List (List Char × α)) : dictGet k (dictInsert k v d) = some v := by
  induction d with
  | nil => simp [dictInsert, dictGet]
  | cons p rest ih =>
    obtain ⟨k', v'⟩ := p
    by_cases hk : k' = k
    · subst hk
      simp [dictInsert, dictGet]
    · simp [dictInsert, if_neg hk, dictGet, ih]

lemma dictGet_insert_ne {α : Type} {k k' : List Char} (h : k ≠ k') (v : α)
    (d : List (List Char × α)) : dictGet k (dictInsert k' v d) = dictGet k d := by
  induction d with
  | nil =>
    simp only [dictInsert, dictGet]
    rw [if_neg (fun he => h he.symm)]
  | cons p rest ih =>
    obtain ⟨k2, v2⟩ := p
    by_cases hk : k2 = k'
    · subst hk
      simp only [dictInsert, if_pos rfl, dictGet]
      rw [if_neg (fun he => h he.symm), if_neg (fun he => h he.symm)]
    · simp only [dictInsert, if_neg hk, dictGet, ih]

lemma storedRevision_eq {s : SharedState} {kvs : List (List Char × JValue)}
    (hspec : s.api_spec.getD (.jobj []) = .jobj kvs) :
    storedRevision s =
      match dictGet "revision".toList kvs with
      | some (.jstr r) => some r
      | none => some "1.0.0".toList
      | some _ => none := by
  unfold storedRevision
  rw [hspec]

lemma updateApiSpecStore_spec (s : SharedState) (a : List Char)
    (dkvs : List (List Char × JValue)) (t r ni : List Char) (ne : Int) :
    (updateApiSpecStore s a dkvs t r ni ne).2.api_spec_revision =
        some (RevisionManager.increment_version r t) ∧
    storedRevision (updateApiSpecStore s a dkvs t r ni ne).2 =
        some (RevisionManager.increment_version r t) := by
  unfold updateApiSpecStore storedRevision
  refine ⟨rfl, ?_⟩
  simp only [Option.getD_some]
  rw [dictGet_insert_ne (by decide), dictGet_insert_ne (by decide), dictGet_insert_self]

lemma update_api_spec_ok {s : SharedState} {a d t ni : List Char} {ne : Int}
    {msg : List Char} {s' : SharedState}
    (h : update_api_spec s a d t ni ne = some (msg, s'))
    (hok : isOkMsg msg = true) :
    ∃ r, storedRevision s = some r ∧
      s'.api_spec_revision = some (RevisionManager.increment_version r t) ∧
      storedRevision s' = some (RevisionManager.increment_version r t) := by
  unfold update_api_spec at h
  split at h
  · simp only [Option.some.injEq, Prod.mk.injEq] at h
    rw [← h.1] at hok
    exact absurd hok (by decide)
  · split at h
    · simp only [Option.some.injEq, Prod.mk.injEq] at h
      rw [← h.1] at hok
      exact absurd hok (by decide)
    · split at h
      · rename_i kvs hspec
        split at h
        · rename_i dkvs hveq
          split at h
          · rename_i r hrev
            have hx : updateApiSpecStore s a dkvs t r ni ne = (msg, s') :=
              Option.some.inj h
            have hs' : s' = (updateApiSpecStore s a dkvs t r ni ne).2 := by
              rw [hx]
            refine ⟨r, ?_, ?_, ?_⟩
            · rw [storedRevision_eq hspec, hrev]
            · rw [hs']
              exact (updateApiSpecStore_spec s a dkvs t r ni ne).1
            · rw [hs']
              exact (updateApiSpecStore_spec s a dkvs t r ni ne).2
          · rename_i hrev
            have hx : updateApiSpecStore s a dkvs t "1.0.0".toList ni ne = (msg, s') :=
              Option.some.inj h
            have hs' : s' = (updateApiSpecStore s a dkvs t "1.0.0".toList ni ne).2 := by
              rw [hx]
            refine ⟨"1.0.0".toList, ?_, ?_, ?_⟩
            · rw [storedRevision_eq hspec, hrev]
            · rw [hs']
              exact (updateApiSpecStore_spec s a dkvs t "1.0.0".toList ni ne).1
            · rw [hs']
              exact (updateApiSpecStore_spec s a dkvs t "1.0.0".toList ni ne).2
          · exact absurd h (by simp)
        · exact absurd h (by simp)
      · exact absurd h (by simp)

lemma runApiSpec_chain : ∀ (calls : List ApiSpecCall) (s : SharedState)
    (sf : SharedState) (revs : List (List Char)) (r0 : List Char),
    runApiSpecUpdates s calls = some (sf, revs) →
    storedRevision s = some r0 →
    List.Chain' (fun a b => versionLt (RevisionManager.parse_version a)
      (RevisionManager.parse_version b)) (r0 :: revs) := by
  intro calls
  induction calls with
  | nil =>
    intro s sf revs r0 hrun _
    unfold runApiSpecUpdates at hrun
    simp only [Option.some.injEq, Prod.mk.injEq] at hrun
    rw [← hrun.2]
    exact List.chain'_singleton r0
  | cons c cs ih =>
    intro s sf revs r0 hrun hr0
    unfold runApiSpecUpdates at hrun
    split at hrun
    · exact absurd hrun (by simp)
    · rename_i msg s' hcall
      split at hrun
      · rename_i hok
        cases hrec : runApiSpecUpdates s' cs with
        | none =>
          rw [hrec] at hrun
          exact absurd hrun (by simp)
        | some p =>
          obtain ⟨sf2, revs2⟩ := p
          rw [hrec] at hrun
          simp only [Option.map_some', Option.some.injEq, Prod.mk.injEq] at hrun
          obtain ⟨hsf, hrevs⟩ := hrun
          obtain ⟨r, hsr, hrev', hsr'⟩ := update_api_spec_ok hcall hok
          have hrr : r = r0 := by
            rw [hr0] at hsr
            exact (Option.some.inj hsr).symm
          subst hrr
          have hchain2 := ih s' sf2 revs2
            (RevisionManager.increment_version r c.revision_type) hrec hsr'
          rw [← hrevs, hrev']
          simp only [Option.getD_some]
          exact List.chain'_cons.mpr ⟨versionLt_increment r c.revision_type, hchain2⟩
      · exact absurd hrun (by simp)

/-! # Claim theorems -/

/-- C3: for any sequence of successful `update_api_spec` calls with
change_type in major/minor/patch, the stored revision sequence is strictly
increasing under (major, minor, patch) lexicographic order; a major (or
planner_regen) increment resets minor and patch to 0, a minor (or spec_regen)
increment resets patch to 0; and concretely
`increment("1.4.9", "minor") = "1.5.0"`, `increment("1.4.9", "major") = "2.0.0"`. -/
theorem C3_monotonic_revision :
    (∀ (s : SharedState) (calls : List ApiSpecCall) (sf : SharedState)
        (revs : List (List Char)),
      runApiSpecUpdates s calls = some (sf, revs) →
      (∀ c ∈ calls,
        c.revision_type ∈ ["major".toList, "minor".toList, "patch".toList]) →
      List.Pairwise (fun a b => versionLt (RevisionManager.parse_version a)
        (RevisionManager.parse_version b)) revs) ∧
    (∀ cur, RevisionManager.parse_version
        (RevisionManager.increment_version cur "major".toList) =
      ⟨(RevisionManager.parse_version cur).major + 1, 0, 0⟩) ∧
    (∀ cur, RevisionManager.parse_version
        (RevisionManager.increment_version cur "planner_regen".toList) =
      ⟨(RevisionManager.parse_version cur).major + 1, 0, 0⟩) ∧
    (∀ cur, RevisionManager.parse_version
        (RevisionManager.increment_version cur "minor".toList) =
      ⟨(RevisionManager.parse_version cur).major,
        (RevisionManager.parse_version cur).minor + 1, 0⟩) ∧
    (∀ cur, RevisionManager.parse_version
        (RevisionManager.increment_version cur "spec_regen".toList) =
      ⟨(RevisionManager.parse_version cur).major,
        (RevisionManager.parse_version cur).minor + 1, 0⟩) ∧
    RevisionManager.increment_version "1.4.9".toList "minor".toList = "1.5.0".toList ∧
    RevisionManager.increment_version "1.4.9".toList "major".toList = "2.0.0".toList := by
  refine ⟨?_, ?_, ?_, ?_, ?_, by rfl, by rfl⟩
  · intro s calls sf revs hrun _
    have hpair : ∀ l, List.Chain' (fun a b => versionLt (RevisionManager.parse_version a)
        (RevisionManager.parse_version b)) l →
        List.Pairwise (fun a b => versionLt (RevisionManager.parse_version a)
          (RevisionManager.parse_version b)) l := by
      intro l
      induction l with
      | nil => intro _; exact List.Pairwise.nil
      | cons x xs ihp =>
        intro hc
        rcases xs with _ | ⟨y, ys⟩
        · exact List.pairwise_singleton _ x
        · obtain ⟨hxy, hc'⟩ := List.chain'_cons.mp hc
          have hp' := ihp hc'
          refine List.pairwise_cons.mpr ⟨?_, hp'⟩
          intro z hz
          rcases List.mem_cons.mp hz with hz | hz
          · subst hz
            exact hxy
          · have hyz := List.pairwise_cons.mp hp' |>.1 z hz
            exact versionLt_trans hxy hyz
    cases calls with
    | nil =>
      unfold runApiSpecUpdates at hrun
      simp only [Option.some.injEq, Prod.mk.injEq] at hrun
      rw [← hrun.2]
      exact List.Pairwise.nil
    | cons c cs =>
      have h0 : ∃ r0, storedRevision s = some r0 := by
        unfold runApiSpecUpdates at hrun
        split at hrun
        · exact absurd hrun (by simp)
        · rename_i msg s' hcall
          split at hrun
          · rename_i hok
            obtain ⟨r, hsr, _, _⟩ := update_api_spec_ok hcall hok
            exact ⟨r, hsr⟩
          · exact absurd hrun (by simp)
      obtain ⟨r0, hr0⟩ := h0
      have hchain := runApiSpec_chain (c :: cs) s sf revs r0 hrun hr0
      exact (List.pairwise_cons.mp (hpair _ hchain)).2
  · intro cur
    rw [parse_increment, if_pos (Or.inl rfl)]
  · intro cur
    rw [parse_increment, if_pos (Or.inr rfl)]
  · intro cur
    rw [parse_increment, if_neg (by decide), if_pos (Or.inl rfl)]
  · intro cur
    rw [parse_increment, if_neg (by decide), if_pos (Or.inr rfl)]

/-- Witness for C3 at a concrete two-call run (minor then major from the
initial team state): the collected revisions are `["1.1.0", "2.0.0"]`. -/
theorem C3_monotonic_revision_witness :
    List.Pairwise (fun a b => versionLt (RevisionManager.parse_version a)
      (RevisionManager.parse_version b)) ["1.1.0".toList, "2.0.0".toList] :=
  C3_monotonic_revision.1 c3s0 c3calls c3WitnessState
    ["1.1.0".toList, "2.0.0".toList] (by rfl) (by decide)

/-- C1: each update operation, on JSON-parse or markdown/commentary failure,
returns an error and leaves the stored state untouched (no partial write); in
particular, after `update_project_plan('{"a":1}')` succeeds, a subsequent
`update_project_plan('not json')` errors and the stored plan still reads back
as `{"a":1}`. -/
theorem C1_validate_then_replace_atomicity :
    (∀ (s : SharedState) (a pd now : List Char),
      JSONValidator.validate_json_string pd = none ∨
        JSONValidator.has_markdown_or_comments pd = true →
      (_update_project_plan_core s a pd now).1.head? = some '❌' ∧
        (_update_project_plan_core s a pd now).2 = s) ∧
    (∀ (s : SharedState) (a sd rt ni : List Char) (ne : Int),
      JSONValidator.validate_json_string sd = none ∨
        JSONValidator.has_markdown_or_comments sd = true →
      ∃ msg, update_api_spec s a sd rt ni ne = some (msg, s) ∧
        msg.head? = some '❌') ∧
    (∀ (s : SharedState) (a rd now : List Char),
      JSONValidator.validate_json_string rd = none ∨
        JSONValidator.has_markdown_or_comments rd = true →
      ∃ msg, update_backend_report s a rd now = some (msg, s) ∧
        msg.head? = some '❌') ∧
    (∀ (s : SharedState) (a rd now : List Char),
      JSONValidator.validate_json_string rd = none ∨
        JSONValidator.has_markdown_or_comments rd = true →
      ∃ msg, update_frontend_report s a rd now = some (msg, s) ∧
        msg.head? = some '❌') ∧
    ((_update_project_plan_core (initialTeamState "t0".toList) "Planner".toList
        "\x7b\"a\":1\x7d".toList "t1".toList).1.head? = some '✅' ∧
     (_update_project_plan_core (initialTeamState "t0".toList) "Planner".toList
        "\x7b\"a\":1\x7d".toList "t1".toList).2.project_plan =
          some (.jobj [("a".toList, .jnum 1)]) ∧
     (_update_project_plan_core
        (_update_project_plan_core (initialTeamState "t0".toList) "Planner".toList
          "\x7b\"a\":1\x7d".toList "t1".toList).2 "Planner".toList
        "not json".toList "t2".toList).1.head? = some '❌' ∧
     (_update_project_plan_core
        (_update_project_plan_core (initialTeamState "t0".toList) "Planner".toList
          "\x7b\"a\":1\x7d".toList "t1".toList).2 "Planner".toList
        "not json".toList "t2".toList).2 =
       (_update_project_plan_core (initialTeamState "t0".toList) "Planner".toList
          "\x7b\"a\":1\x7d".toList "t1".toList).2 ∧
     _get_project_plan_core
        (_update_project_plan_core
          (_update_project_plan_core (initialTeamState "t0".toList) "Planner".toList
            "\x7b\"a\":1\x7d".toList "t1".toList).2 "Planner".toList
          "not json".toList "t2".toList).2 =
       .ok (.jobj [("a".toList, .jnum 1)])) := by
  refine ⟨?_, ?_, ?_, ?_, rfl, rfl, rfl, rfl, rfl⟩
  · intro s a pd now hrej
    unfold _update_project_plan_core
    split
    · exact ⟨rfl, rfl⟩
    · rename_i data hv
      split
      · exact ⟨rfl, rfl⟩
      · rename_i hm
        rcases hrej with hrej | hrej
        · rw [hrej] at hv
          exact Option.noConfusion hv
        · exact absurd hrej hm
  · intro s a sd rt ni ne hrej
    unfold update_api_spec
    split
    · exact ⟨_, rfl, rfl⟩
    · rename_i data hv
      split
      · exact ⟨_, rfl, rfl⟩
      · rename_i hm
        rcases hrej with hrej | hrej
        · rw [hrej] at hv
          exact Option.noConfusion hv
        · exact absurd hrej hm
  · intro s a rd now hrej
    unfold update_backend_report
    split
    · exact ⟨_, rfl, rfl⟩
    · rename_i data hv
      split
      · exact ⟨_, rfl, rfl⟩
      · rename_i hm
        rcases hrej with hrej | hrej
        · rw [hrej] at hv
          exact Option.noConfusion hv
        · exact absurd hrej hm
  · intro s a rd now hrej
    unfold update_frontend_report
    split
    · exact ⟨_, rfl, rfl⟩
    · rename_i data hv
      split
      · exact ⟨_, rfl, rfl⟩
      · rename_i hm
        rcases hrej with hrej | hrej
        · rw [hrej] at hv
          exact Option.noConfusion hv
        · exact absurd hrej hm

/-- Witness for C1: the invalid write `update_project_plan('not json')`
against the initial team state errors and leaves the state identical. -/
theorem C1_validate_then_replace_atomicity_witness :
    (_update_project_plan_core (initialTeamState "t0".toList) "Planner".toList
        "not json".toList "t1".toList).1.head? = some '❌' ∧
    (_update_project_plan_core (initialTeamState "t0".toList) "Planner".toList
        "not json".toList "t1".toList).2 = initialTeamState "t0".toList :=
  C1_validate_then_replace_atomicity.1 (initialTeamState "t0".toList)
    "Planner".toList "not json".toList "t1".toList (Or.inl (by rfl))

/-- C2: with validation enabled, a phase transition is rejected with an error
and no state change whenever the edge is illegal or the target's prerequisite
document is missing; otherwise it sets `current_phase` and `workflow_status`,
stamps `last_phase_update`, and appends exactly one transition record. -/
theorem C2_transition_validation :
    ∀ (s : SharedState) (target now : List Char),
      (transitionRejected s target →
        (transition_workflow_phase s target true now).1.head? = some '❌' ∧
        (transition_workflow_phase s target true now).2 = s) ∧
      (¬ transitionRejected s target →
        (transition_workflow_phase s target true now).1.head? = some '✅' ∧
        (transition_workflow_phase s target true now).2 =
          { s with
              current_phase := target
              workflow_status := WorkflowStatus.IN_PROGRESS
              last_phase_update := some now
              phase_history := s.phase_history ++
                [{ from_phase := s.current_phase
                   to_phase := target
                   timestamp := now
                   transition_type := "validated".toList }] }) := by
  intro s target now
  unfold transition_workflow_phase
  by_cases hc1 : (true : Bool) ∧ target ∉ valid_transitions s.current_phase
  · rw [if_pos hc1]
    exact ⟨fun _ => ⟨rfl, rfl⟩, fun hacc => absurd (Or.inl hc1.2) hacc⟩
  · rw [if_neg hc1]
    by_cases hc2 : (true : Bool) ∧ target = WorkflowPhase.SPEC_GENERATION ∧
        ¬ jtruthy s.project_plan
    · rw [if_pos hc2]
      refine ⟨fun _ => ⟨rfl, rfl⟩, fun hacc => absurd ?_ hacc⟩
      exact Or.inr (Or.inl ⟨hc2.2.1, by
        have := hc2.2.2
        simp only [Bool.not_eq_true] at this
        exact this⟩)
    · rw [if_neg hc2]
      by_cases hc3 : (true : Bool) ∧ target = WorkflowPhase.BACKEND_GENERATION ∧
          ¬ jtruthy s.api_spec
      · rw [if_pos hc3]
        refine ⟨fun _ => ⟨rfl, rfl⟩, fun hacc => absurd ?_ hacc⟩
        exact Or.inr (Or.inr ⟨Or.inl hc3.2.1, by
          have := hc3.2.2
          simp only [Bool.not_eq_true] at this
          exact this⟩)
      · rw [if_neg hc3]
        by_cases hc4 : (true : Bool) ∧ target = WorkflowPhase.FRONTEND_GENERATION ∧
            ¬ jtruthy s.api_spec
        · rw [if_pos hc4]
          refine ⟨fun _ => ⟨rfl, rfl⟩, fun hacc => absurd ?_ hacc⟩
          exact Or.inr (Or.inr ⟨Or.inr hc4.2.1, by
            have := hc4.2.2
            simp only [Bool.not_eq_true] at this
            exact this⟩)
        · rw [if_neg hc4]
          refine ⟨fun hrej => absurd hrej ?_, fun _ => ⟨rfl, rfl⟩⟩
          intro hrej
          rcases hrej with h | ⟨h1, h2⟩ | ⟨h1, h2⟩
          · exact hc1 ⟨rfl, h⟩
          · exact hc2 ⟨rfl, h1, by simp [h2]⟩
          · rcases h1 with h1 | h1
            · exact hc3 ⟨rfl, h1, by simp [h2]⟩
            · exact hc4 ⟨rfl, h1, by simp [h2]⟩

/-- Witness for C2: from the initial team state (empty project plan), the
transition to spec generation is rejected and the state is unchanged. -/
theorem C2_transition_validation_witness :
    (transition_workflow_phase (initialTeamState "t0".toList)
        WorkflowPhase.SPEC_GENERATION true "t1".toList).1.head? = some '❌' ∧
    (transition_workflow_phase (initialTeamState "t0".toList)
        WorkflowPhase.SPEC_GENERATION true "t1".toList).2 =
      initialTeamState "t0".toList :=
  (C2_transition_validation (initialTeamState "t0".toList)
    WorkflowPhase.SPEC_GENERATION "t1".toList).1 (by decide)

/-- C5 counterexample: with exactly one phase-history entry whose `from_phase`
is backend_generation, the rollback recovery sets `current_phase` to that
`from_phase`, not to PLANNING as the claim states. -/
theorem C5_rollback_counterexample :
    (handle_workflow_error
        { initialTeamState "t0".toList with
            phase_history := [{ from_phase := "backend_generation".toList
                                to_phase := "validation".toList
                                timestamp := "t1".toList
                                transition_type := "validated".toList }] }
        "agent_error".toList "m".toList "rollback".toList "t2".toList).2.current_phase =
      "backend_generation".toList ∧
    "backend_generation".toList ≠ WorkflowPhase.PLANNING :=
  ⟨rfl, by decide⟩

/-- C5 amended: rollback sets `current_phase` to the `from_phase` of the
second-to-last history entry when the history has at least two entries, to
the `from_phase` of the single entry when it has exactly one, and to PLANNING
only when the history is empty. -/
theorem C5_rollback_amended :
    ∀ (s : SharedState) (et em now : List Char),
      (s.phase_history = [] →
        (handle_workflow_error s et em "rollback".toList now).2.current_phase =
          WorkflowPhase.PLANNING) ∧
      (∀ x, s.phase_history = [x] →
        (handle_workflow_error s et em "rollback".toList now).2.current_phase =
          x.from_phase) ∧
      (∀ pre x y, s.phase_history = pre ++ [x, y] →
        (handle_workflow_error s et em "rollback".toList now).2.current_phase =
          x.from_phase) := by
  intro s et em now
  unfold handle_workflow_error
  rw [if_neg (by decide), if_neg (by decide), if_pos rfl]
  refine ⟨?_, ?_, ?_⟩
  · intro h
    rw [h]
    rfl
  · intro x h
    rw [h]
    rfl
  · intro pre x y h
    rw [h]
    have hrev : (pre ++ [x, y]).reverse = y :: x :: pre.reverse := by
      simp
    rw [hrev]

/-- Witness for C5 (amended): the empty-history case from the initial team
state rolls back to PLANNING. -/
theorem C5_rollback_amended_witness :
    (handle_workflow_error (initialTeamState "t0".toList) "agent_error".toList
        "m".toList "rollback".toList "t1".toList).2.current_phase =
      WorkflowPhase.PLANNING :=
  (C5_rollback_amended (initialTeamState "t0".toList) "agent_error".toList
    "m".toList "t1".toList).1 rfl

/-- C10: the error handler appends exactly one `error_history` record, sets
`workflow_status` to failed and `last_error`, changes `current_phase` only for
the regenerate/rollback recovery actions, and leaves every other part of the
shared state (plan, spec, reports, phase/handoff histories, revision data)
unchanged. -/
theorem C10_error_handler_frame :
    ∀ (s : SharedState) (et em ra now : List Char),
      (handle_workflow_error s et em ra now).2.error_history =
          s.error_history ++
            [{ timestamp := now, phase := s.current_phase, error_type := et,
               error_message := em, recovery_action := ra }] ∧
      (handle_workflow_error s et em ra now).2.workflow_status =
          WorkflowStatus.FAILED ∧
      (handle_workflow_error s et em ra now).2.last_error =
          some { timestamp := now, phase := s.current_phase, error_type := et,
                 error_message := em, recovery_action := ra } ∧
      (handle_workflow_error s et em ra now).2.project_plan = s.project_plan ∧
      (handle_workflow_error s et em ra now).2.project_plan_updated =
          s.project_plan_updated ∧
      (handle_workflow_error s et em ra now).2.project_plan_agent =
          s.project_plan_agent ∧
      (handle_workflow_error s et em ra now).2.api_spec = s.api_spec ∧
      (handle_workflow_error s et em ra now).2.api_spec_revision =
          s.api_spec_revision ∧
      (handle_workflow_error s et em ra now).2.api_spec_history =
          s.api_spec_history ∧
      (handle_workflow_error s et em ra now).2.backend_report = s.backend_report ∧
      (handle_workflow_error s et em ra now).2.frontend_report = s.frontend_report ∧
      (handle_workflow_error s et em ra now).2.phase_history = s.phase_history ∧
      (handle_workflow_error s et em ra now).2.handoff_history =
          s.handoff_history ∧
      (handle_workflow_error s et em ra now).2.last_handoff = s.last_handoff ∧
      (handle_workflow_error s et em ra now).2.last_phase_update =
          s.last_phase_update ∧
      (ra ≠ "regenerate".toList → ra ≠ "rollback".toList →
        (handle_workflow_error s et em ra now).2.current_phase = s.current_phase) := by
  intro s et em ra now
  unfold handle_workflow_error
  split
  · exact ⟨rfl, rfl, rfl, rfl, rfl, rfl, rfl, rfl, rfl, rfl, rfl, rfl, rfl, rfl, rfl,
      fun _ _ => rfl⟩
  · split
    · split
      · rename_i hra _
        exact ⟨rfl, rfl, rfl, rfl, rfl, rfl, rfl, rfl, rfl, rfl, rfl, rfl, rfl, rfl, rfl,
          fun h1 _ => absurd hra h1⟩
      · rename_i hra _
        exact ⟨rfl, rfl, rfl, rfl, rfl, rfl, rfl, rfl, rfl, rfl, rfl, rfl, rfl, rfl, rfl,
          fun h1 _ => absurd hra h1⟩
    · split
      · rename_i hra
        split
        · exact ⟨rfl, rfl, rfl, rfl, rfl, rfl, rfl, rfl, rfl, rfl, rfl, rfl, rfl, rfl, rfl,
            fun _ h2 => absurd hra h2⟩
        · exact ⟨rfl, rfl, rfl, rfl, rfl, rfl, rfl, rfl, rfl, rfl, rfl, rfl, rfl, rfl, rfl,
            fun _ h2 => absurd hra h2⟩
        · exact ⟨rfl, rfl, rfl, rfl, rfl, rfl, rfl, rfl, rfl, rfl, rfl, rfl, rfl, rfl, rfl,
            fun _ h2 => absurd hra h2⟩
      · exact ⟨rfl, rfl, rfl, rfl, rfl, rfl, rfl, rfl, rfl, rfl, rfl, rfl, rfl, rfl, rfl,
          fun _ _ => rfl⟩

/-- Witness for C10 at a concrete retry invocation from the initial team
state: the error history gains exactly the one logged record. -/
theorem C10_error_handler_frame_witness :
    (handle_workflow_error (initialTeamState "t0".toList) "agent_error".toList
        "boom".toList "retry".toList "t1".toList).2.current_phase =
      (initialTeamState "t0".toList).current_phase :=
  (C10_error_handler_frame (initialTeamState "t0".toList) "agent_error".toList
    "boom".toList "retry".toList "t1".toList).2.2.2.2.2.2.2.2.2.2.2.2.2.2.2
    (by decide) (by decide)

lemma extendsHistories_refl (s : SharedState) : extendsHistories s s :=
  ⟨⟨[], (List.append_nil _).symm⟩, ⟨[], (List.append_nil _).symm⟩,
   ⟨[], (List.append_nil _).symm⟩, ⟨[], (List.append_nil _).symm⟩⟩

/-- C9: every operation of the orchestration core only extends the four
history lists — after any single call each of `phase_history`,
`error_history`, `handoff_history` and `api_spec_history` has the pre-call
list as a prefix with new records appended at the end. -/
theorem C9_append_only_histories :
    (∀ (s : SharedState) (target : List Char) (vr : Bool) (now : List Char),
      extendsHistories s (transition_workflow_phase s target vr now).2) ∧
    (∀ (s : SharedState) (et em ra now : List Char),
      extendsHistories s (handle_workflow_error s et em ra now).2) ∧
    (∀ (s : SharedState) (fa ta : List Char) (hd : Option (List Char))
        (now : List Char),
      extendsHistories s (coordinate_agent_handoff s fa ta hd now).2) ∧
    (∀ (s : SharedState) (a sd rt ni : List Char) (ne : Int)
        (msg : List Char) (s' : SharedState),
      update_api_spec s a sd rt ni ne = some (msg, s') →
      extendsHistories s s') ∧
    (∀ (s : SharedState) (ct d ni : List Char) (ne : Int)
        (msg : List Char) (s' : SharedState),
      manage_api_spec_revision s ct d ni ne = some (msg, s') →
      extendsHistories s s') := by
  refine ⟨?_, ?_, ?_, ?_, ?_⟩
  · intro s target vr now
    unfold transition_workflow_phase
    split
    · exact extendsHistories_refl s
    · split
      · exact extendsHistories_refl s
      · split
        · exact extendsHistories_refl s
        · split
          · exact extendsHistories_refl s
          · exact ⟨⟨_, rfl⟩, ⟨[], (List.append_nil _).symm⟩,
              ⟨[], (List.append_nil _).symm⟩, ⟨[], (List.append_nil _).symm⟩⟩
  · intro s et em ra now
    unfold handle_workflow_error
    split
    · exact ⟨⟨[], (List.append_nil _).symm⟩, ⟨_, rfl⟩,
        ⟨[], (List.append_nil _).symm⟩, ⟨[], (List.append_nil _).symm⟩⟩
    · split
      · split
        · exact ⟨⟨[], (List.append_nil _).symm⟩, ⟨_, rfl⟩,
            ⟨[], (List.append_nil _).symm⟩, ⟨[], (List.append_nil _).symm⟩⟩
        · exact ⟨⟨[], (List.append_nil _).symm⟩, ⟨_, rfl⟩,
            ⟨[], (List.append_nil _).symm⟩, ⟨[], (List.append_nil _).symm⟩⟩
      · split
        · split
          · exact ⟨⟨[], (List.append_nil _).symm⟩, ⟨_, rfl⟩,
              ⟨[], (List.append_nil _).symm⟩, ⟨[], (List.append_nil _).symm⟩⟩
          · exact ⟨⟨[], (List.append_nil _).symm⟩, ⟨_, rfl⟩,
              ⟨[], (List.append_nil _).symm⟩, ⟨[], (List.append_nil _).symm⟩⟩
          · exact ⟨⟨[], (List.append_nil _).symm⟩, ⟨_, rfl⟩,
              ⟨[], (List.append_nil _).symm⟩, ⟨[], (List.append_nil _).symm⟩⟩
        · exact ⟨⟨[], (List.append_nil _).symm⟩, ⟨_, rfl⟩,
            ⟨[], (List.append_nil _).symm⟩, ⟨[], (List.append_nil _).symm⟩⟩
  · intro s fa ta hd now
    unfold coordinate_agent_handoff
    split
    · split
      · split
        · exact ⟨⟨[], (List.append_nil _).symm⟩, ⟨[], (List.append_nil _).symm⟩,
            ⟨_, rfl⟩, ⟨[], (List.append_nil _).symm⟩⟩
        · exact ⟨⟨[], (List.append_nil _).symm⟩, ⟨[], (List.append_nil _).symm⟩,
            ⟨_, rfl⟩, ⟨[], (List.append_nil _).symm⟩⟩
      · exact ⟨⟨[], (List.append_nil _).symm⟩, ⟨[], (List.append_nil _).symm⟩,
          ⟨_, rfl⟩, ⟨[], (List.append_nil _).symm⟩⟩
    · exact ⟨⟨[], (List.append_nil _).symm⟩, ⟨[], (List.append_nil _).symm⟩,
        ⟨_, rfl⟩, ⟨[], (List.append_nil _).symm⟩⟩
  · intro s a sd rt ni ne msg s' h
    unfold update_api_spec at h
    split at h
    · injection Option.some.inj h with hmsg hs
      rw [← hs]
      exact extendsHistories_refl s
    · split at h
      · injection Option.some.inj h with hmsg hs
        rw [← hs]
        exact extendsHistories_refl s
      · split at h
        · split at h
          · split at h
            · have hinj := Option.some.inj h
              have hs : s' = (msg, s').2 := rfl
              rw [hs, ← hinj]
              exact ⟨⟨[], (List.append_nil _).symm⟩, ⟨[], (List.append_nil _).symm⟩,
                ⟨[], (List.append_nil _).symm⟩, ⟨_, rfl⟩⟩
            · have hinj := Option.some.inj h
              have hs : s' = (msg, s').2 := rfl
              rw [hs, ← hinj]
              exact ⟨⟨[], (List.append_nil _).symm⟩, ⟨[], (List.append_nil _).symm⟩,
                ⟨[], (List.append_nil _).symm⟩, ⟨_, rfl⟩⟩
            · exact absurd h (by simp)
          · exact absurd h (by simp)
        · exact absurd h (by simp)
  · intro s ct d ni ne msg s' h
    unfold manage_api_spec_revision at h
    split at h
    · injection Option.some.inj h with hmsg hs
      rw [← hs]
      exact extendsHistories_refl s
    · split at h
      · split at h
        · have hinj := Option.some.inj h
          have hs : s' = (msg, s').2 := rfl
          rw [hs, ← hinj]
          exact ⟨⟨[], (List.append_nil _).symm⟩, ⟨[], (List.append_nil _).symm⟩,
            ⟨[], (List.append_nil _).symm⟩, ⟨_, rfl⟩⟩
        · have hinj := Option.some.inj h
          have hs : s' = (msg, s').2 := rfl
          rw [hs, ← hinj]
          exact ⟨⟨[], (List.append_nil _).symm⟩, ⟨[], (List.append_nil _).symm⟩,
            ⟨[], (List.append_nil _).symm⟩, ⟨_, rfl⟩⟩
        · exact absurd h (by simp)
      · exact absurd h (by simp)

/-- Witness for C9 via the `update_api_spec` conjunct at the concrete first
call of the revision run. -/
theorem C9_append_only_histories_witness :
    extendsHistories c3s0
      ((update_api_spec c3s0 "ApiSpecGenerator".toList "\x7b\"a\":1\x7d".toList
          "minor".toList "t1".toList 1).getD ([], c3s0)).2 :=
  C9_append_only_histories.2.2.2.1 c3s0 "ApiSpecGenerator".toList
    "\x7b\"a\":1\x7d".toList "minor".toList "t1".toList 1
    ((update_api_spec c3s0 "ApiSpecGenerator".toList "\x7b\"a\":1\x7d".toList
        "minor".toList "t1".toList 1).getD ([], c3s0)).1
    ((update_api_spec c3s0 "ApiSpecGenerator".toList "\x7b\"a\":1\x7d".toList
        "minor".toList "t1".toList 1).getD ([], c3s0)).2
    (by rfl)

/-- C4 (code bug): `has_markdown_or_comments` rejects pure JSON — the
serialized array `[1]` parses as valid JSON yet trips the indicator scan
(`[`/`]` are listed as markdown indicators), so `update_project_plan`
rejects it unchanged; likewise any object whose keys contain `_` (such as the
`project_name` field the orchestrator's own integrity check requires) is
rejected. -/
theorem C4_markdown_gate_rejects_pure_json :
    JSONValidator.validate_json_string "[1]".toList = some (.jarr [.jnum 1]) ∧
    JSONValidator.has_markdown_or_comments "[1]".toList = true ∧
    (_update_project_plan_core (initialTeamState "t0".toList) "Planner".toList
        "[1]".toList "t1".toList).1.head? = some '❌' ∧
    (_update_project_plan_core (initialTeamState "t0".toList) "Planner".toList
        "[1]".toList "t1".toList).2 = initialTeamState "t0".toList ∧
    JSONValidator.validate_json_string "\x7b\"project_name\":\"x\"\x7d".toList =
      some (.jobj [("project_name".toList, .jstr "x".toList)]) ∧
    JSONValidator.has_markdown_or_comments
      "\x7b\"project_name\":\"x\"\x7d".toList = true :=
  ⟨rfl, by decide, rfl, rfl, rfl, by decide⟩

/-- C6 counterexample: the extractor matches only `<codeartifact …>` tags, so
the claim's input `<artifact …>hello</artifact>` yields zero artifacts, not
one. -/
theorem C6_artifact_scenario_counterexample :
    extract_code_artifacts
        "<artifact type=\"text\" filename=\"a.txt\" purpose=\"x\">hello</artifact>".toList
      = [] ∧
    (extract_code_artifacts
        "<artifact type=\"text\" filename=\"a.txt\" purpose=\"x\">hello</artifact>".toList).length
      ≠ 1 :=
  ⟨rfl, by decide⟩

/-- C6 amended: with the tag name the code actually matches (`codeartifact`),
the same input yields exactly one artifact with filename `a.txt` and content
`hello`. -/
theorem C6_artifact_scenario_amended :
    extract_code_artifacts
        "<codeartifact type=\"text\" filename=\"a.txt\" purpose=\"x\">hello</codeartifact>".toList
      = [{ type := "text".toList
           filename := "a.txt".toList
           purpose := "x".toList
           dependencies := none
           complexity := "simple".toList
           content := "hello".toList }] :=
  rfl

/-- C7 counterexample: extraction applies `.strip()` to the content group, so
a segment whose between-tag content is `\x20hello\x20` is saved as `hello`,
not byte-identical to the content between the tags. -/
theorem C7_roundtrip_counterexample :
    (extract_code_artifacts
        "<codeartifact type=\"text\" filename=\"a.txt\" purpose=\"x\"> hello </codeartifact>".toList).map
        (fun a => a.content) = ["hello".toList] ∧
    fsRead (save_artifacts_to_files
        (extract_code_artifacts
          "<codeartifact type=\"text\" filename=\"a.txt\" purpose=\"x\"> hello </codeartifact>".toList)
        "out".toList []).2 "out/a.txt".toList = some "hello".toList ∧
    "hello".toList ≠ " hello ".toList :=
  ⟨rfl, rfl, by decide⟩

/-- C8 counterexample: the fence-stripping pass runs with `re.MULTILINE`, so a
fence marker on an interior line of the content is removed, contradicting the
claim that interior fence markers are preserved. -/
theorem C8_fence_strip_counterexample :
    clean_markdown_content "x\n```\ny".toList = "x\ny".toList ∧
    "x\ny".toList ≠ "x\n```\ny".toList :=
  ⟨rfl, by decide⟩

lemma not_prefix_of_not_contains {pat xs : List Char}
    (h : containsSub pat xs = false) : pat.isPrefixOf xs = false := by
  cases xs with
  | nil =>
    unfold containsSub at h
    cases hp : pat.isPrefixOf ([] : List Char) with
    | false => rfl
    | true =>
      cases pat with
      | nil => simp [List.isEmpty] at h
      | cons p ps => simp [List.isPrefixOf] at hp
  | cons c rest =>
    unfold containsSub at h
    exact (Bool.or_eq_false_iff.mp h).1

lemma not_contains_tail {pat : List Char} {c : Char} {xs : List Char}
    (h : containsSub pat (c :: xs) = false) : containsSub pat xs = false := by
  unfold containsSub at h
  exact (Bool.or_eq_false_iff.mp h).2

lemma fenceOpenMatch_none {allowFour : Bool} {cs : List Char}
    (h : ("```".toList).isPrefixOf cs = false) :
    fenceOpenMatch allowFour cs = none := by
  unfold fenceOpenMatch
  split
  · rename_i rest
    exfalso
    revert h
    simp [List.isPrefixOf]
  · rfl

lemma fenceCloseCore_none {allowFour : Bool} {s : List Char}
    (h : ("```".toList).isPrefixOf s = false) :
    fenceCloseCore allowFour s = none := by
  unfold fenceCloseCore
  split
  · rename_i rest
    exfalso
    revert h
    simp [List.isPrefixOf]
  · rfl

lemma fenceCloseMatch_none {allowFour : Bool} {cs : List Char}
    (h : hasFence cs = false) : fenceCloseMatch allowFour cs = none := by
  unfold hasFence at h
  unfold fenceCloseMatch
  cases cs with
  | nil => rfl
  | cons c rest =>
    by_cases hc : c = '\n'
    · subst hc
      show fenceCloseCore allowFour rest = none
      exact fenceCloseCore_none (not_prefix_of_not_contains (not_contains_tail h))
    · split
      · rename_i rest2 heq
        injection heq with h1 h2
        exact absurd h1 hc
      · exact fenceCloseCore_none (not_prefix_of_not_contains h)

lemma subOpenF_id (allowFour : Bool) : ∀ (fuel : Nat) (atStart : Bool)
    (cs : List Char), hasFence cs = false →
    subOpenF allowFour fuel atStart cs = cs := by
  intro fuel
  induction fuel with
  | zero => intro _ cs _; rfl
  | succ f ih =>
    intro atStart cs h
    cases cs with
    | nil => rfl
    | cons c rest =>
      unfold subOpenF
      have hopen : fenceOpenMatch allowFour (c :: rest) = none :=
        fenceOpenMatch_none (not_prefix_of_not_contains h)
      have hmatch : (if atStart then fenceOpenMatch allowFour (c :: rest) else none) = none := by
        cases atStart <;> simp [hopen]
      rw [hmatch]
      show c :: subOpenF allowFour f (decide (c = '\n')) rest = c :: rest
      rw [ih (decide (c = '\n')) rest (not_contains_tail h)]

lemma subCloseF_id (allowFour : Bool) : ∀ (fuel : Nat) (cs : List Char),
    hasFence cs = false → subCloseF allowFour fuel cs = cs := by
  intro fuel
  induction fuel with
  | zero => intro cs _; rfl
  | succ f ih =>
    intro cs h
    cases cs with
    | nil => rfl
    | cons c rest =>
      unfold subCloseF
      rw [fenceCloseMatch_none h]
      show c :: subCloseF allowFour f rest = c :: rest
      rw [ih rest (not_contains_tail h)]

/-- C8 amended: with `re.MULTILINE`, `clean_markdown_content` removes fence
markers at the start and end of every line — interior fence lines included —
and strips surrounding whitespace; content containing no ``` sequence at all
is left verbatim apart from that whitespace strip. -/
theorem C8_fence_strip_amended :
    (∀ content : List Char, hasFence content = false →
      clean_markdown_content content = pyStrip content) ∧
    clean_markdown_content "x\n```\ny".toList = "x\ny".toList := by
  refine ⟨?_, rfl⟩
  intro content h
  unfold clean_markdown_content
  dsimp only
  rw [subOpenF_id true _ _ content h, subOpenF_id false _ _ content h,
    subCloseF_id true _ content h, subCloseF_id false _ content h]

/-- Witness for C8 (amended): a fence-free content is returned stripped. -/
theorem C8_fence_strip_amended_witness :
    clean_markdown_content "  const a = 1;  ".toList =
      pyStrip "  const a = 1;  ".toList :=
  C8_fence_strip_amended.1 "  const a = 1;  ".toList (by decide)

lemma lcEq_refl (c : Char) : lcEq c c = true := by
  simp [lcEq]

lemma ciPrefix_append_self : ∀ (pat rest : List Char),
    ciPrefix pat (pat ++ rest) = some rest := by
  intro pat
  induction pat with
  | nil => intro rest; rfl
  | cons p ps ih =>
    intro rest
    show (if lcEq p p = true then ciPrefix ps (ps ++ rest) else none) = some rest
    rw [if_pos (lcEq_refl p)]
    exact ih rest

lemma toLower_eq_lt {c : Char} (h : Char.toLower c = '<') : c = '<' := by
  unfold Char.toLower at h
  simp only [] at h
  by_cases hr : c.toNat ≥ 65 ∧ c.toNat ≤ 90
  · rw [if_pos hr] at h
    exfalso
    have hv : (c.toNat + 32).isValidChar := by
      constructor
      omega
    have h2 : (Char.ofNat (c.toNat + 32)).toNat = c.toNat + 32 := by
      unfold Char.ofNat
      rw [dif_pos hv]
      unfold Char.ofNatAux
      simp [Char.toNat, UInt32.toNat, BitVec.toNat_ofNatLt]
    have h3 := congrArg Char.toNat h
    rw [h2] at h3
    have h60 : ('<').toNat = 60 := by decide
    omega
  · rw [if_neg hr] at h
    exact h

lemma lcEq_lt_false {c : Char} (h : c ≠ '<') : lcEq '<' c = false := by
  unfold lcEq
  have hlt : Char.toLower '<' = '<' := by decide
  rw [hlt]
  by_contra hcon
  simp only [Bool.not_eq_false, decide_eq_true_eq] at hcon
  exact h (toLower_eq_lt hcon.symm)

lemma ciPrefix_openTag_none {c : Char} {cs : List Char} (h : c ≠ '<') :
    ciPrefix openTag (c :: cs) = none := by
  show ciPrefix ('<' :: "codeartifact".toList) (c :: cs) = none
  unfold ciPrefix
  rw [if_neg (by rw [lcEq_lt_false h]; exact Bool.false_ne_true)]

lemma ciPrefix_closeTag_none {c : Char} {cs : List Char} (h : c ≠ '<') :
    ciPrefix closeTag (c :: cs) = none := by
  show ciPrefix ('<' :: "/codeartifact>".toList) (c :: cs) = none
  unfold ciPrefix
  rw [if_neg (by rw [lcEq_lt_false h]; exact Bool.false_ne_true)]

lemma tryMatch_head_none {c : Char} {cs : List Char} (h : c ≠ '<') :
    tryMatch (c :: cs) = none := by
  unfold tryMatch
  rw [ciPrefix_openTag_none h]

lemma splitAtClose_append : ∀ (content : List Char), (∀ ch ∈ content, ch ≠ '<') →
    ∀ rest, splitAtClose (content ++ (closeTag ++ rest)) = some (content, rest) := by
  intro content
  induction content with
  | nil =>
    intro _ rest
    show splitAtClose (closeTag ++ rest) = some ([], rest)
    show splitAtClose ('<' :: ("/codeartifact>".toList ++ rest)) = some ([], rest)
    unfold splitAtClose
    rw [show ('<' : Char) :: ("/codeartifact>".toList ++ rest) = closeTag ++ rest from rfl,
      ciPrefix_append_self]
  | cons c content' ih =>
    intro h rest
    have hc : c ≠ '<' := h c (List.mem_cons_self c content')
    show splitAtClose (c :: (content' ++ (closeTag ++ rest))) = some (c :: content', rest)
    unfold splitAtClose
    rw [ciPrefix_closeTag_none hc,
      ih (fun ch hch => h ch (List.mem_cons_of_mem c hch)) rest]
    rfl

lemma ciPrefix_length : ∀ {pat s r : List Char}, ciPrefix pat s = some r →
    r.length + pat.length = s.length := by
  intro pat
  induction pat with
  | nil =>
    intro s r h
    rw [show ciPrefix [] s = some s from rfl] at h
    injection h with h
    rw [h]
    simp
  | cons p ps ih =>
    intro s r h
    cases s with
    | nil => exact absurd h (by simp [ciPrefix])
    | cons c cs =>
      unfold ciPrefix at h
      split at h
      · have := ih h
        simp only [List.length_cons]
        omega
      · exact absurd h (by simp)

lemma splitAtClose_length : ∀ {cs pre post : List Char},
    splitAtClose cs = some (pre, post) →
    pre.length + closeTag.length + post.length = cs.length := by
  intro cs
  induction cs with
  | nil => intro pre post h; exact absurd h (by simp [splitAtClose])
  | cons c cs' ih =>
    intro pre post h
    unfold splitAtClose at h
    cases hp : ciPrefix closeTag (c :: cs') with
    | some r =>
      rw [hp] at h
      injection h with h
      injection h with h1 h2
      have hlen := ciPrefix_length hp
      rw [← h1, ← h2]
      simp only [List.length_nil, List.length_cons] at hlen ⊢
      omega
    | none =>
      rw [hp] at h
      cases hs : splitAtClose cs' with
      | none => rw [hs] at h; exact absurd h (by simp)
      | some p =>
        obtain ⟨pre', post'⟩ := p
        rw [hs] at h
        simp only [Option.map_some', Option.some.injEq, Prod.mk.injEq] at h
        have hlen := ih hs
        rw [← h.1, ← h.2]
        simp only [List.length_cons] at hlen ⊢
        omega

lemma takeWhile_append_stop {p : Char → Bool} : ∀ {xs : List Char} {y : Char}
    {ys : List Char}, (∀ x ∈ xs, p x = true) → p y = false →
    (xs ++ y :: ys).takeWhile p = xs := by
  intro xs
  induction xs with
  | nil =>
    intro y ys _ hy
    show (y :: ys).takeWhile p = []
    simp [List.takeWhile_cons, hy]
  | cons x xs' ih =>
    intro y ys hall hy
    have hx : p x = true := hall x (List.mem_cons_self x xs')
    show ((x :: (xs' ++ y :: ys)).takeWhile p) = x :: xs'
    simp only [List.takeWhile_cons, hx, if_true]
    rw [ih (fun a ha => hall a (List.mem_cons_of_mem x ha)) hy]

lemma scanArtifactsF_nil : ∀ f, scanArtifactsF f [] = [] := by
  intro f
  cases f <;> rfl

lemma parseAttrsF_nil : ∀ f, parseAttrsF f [] = [] := by
  intro f
  cases f <;> rfl

lemma tryMatch_segment (fn content rest : List Char)
    (hfn : ∀ ch ∈ fn, ch ≠ '>')
    (hcontent : ∀ ch ∈ content, ch ≠ '<') :
    tryMatch (mkArtifactText fn content ++ rest) =
      some ("filename=\"".toList ++ (fn ++ ['"']), content, rest) := by
  have hshape : mkArtifactText fn content ++ rest =
      openTag ++ ((' ' :: ("filename=\"".toList ++ (fn ++ ['"']))) ++
        ('>' :: (content ++ (closeTag ++ rest)))) := by
    simp [mkArtifactText, List.append_assoc]
  rw [hshape]
  unfold tryMatch
  rw [ciPrefix_append_self]
  dsimp only
  have htake : ((' ' :: ("filename=\"".toList ++ (fn ++ ['"']))) ++
      ('>' :: (content ++ (closeTag ++ rest)))).takeWhile (fun d => d ≠ '>') =
      ' ' :: ("filename=\"".toList ++ (fn ++ ['"'])) := by
    apply takeWhile_append_stop
    · intro x hx
      simp only [List.mem_cons, List.mem_append, List.not_mem_nil, or_false] at hx
      rcases hx with rfl | hx | hx | rfl
      · decide
      · revert hx
        revert x
        decide
      · simpa using hfn x hx
      · decide
    · decide
  rw [htake]
  have hcond : (((' ' :: ("filename=\"".toList ++ (fn ++ ['"']))).head?.elim false isPyWs)
      && decide (2 ≤ (' ' :: ("filename=\"".toList ++ (fn ++ ['"']))).length)) = true := by
    rw [Bool.and_eq_true]
    refine ⟨rfl, decide_eq_true ?_⟩
    simp [List.length_cons, List.length_append]
  rw [if_pos hcond]
  rw [List.drop_left]
  have hk : ((' ' :: ("filename=\"".toList ++ (fn ++ ['"']))).takeWhile isPyWs) = [' '] := rfl
  rw [hk]
  have hmin : min ([' '] : List Char).length
      ((' ' :: ("filename=\"".toList ++ (fn ++ ['"']))).length - 1) = 1 := by
    simp only [List.length_cons, List.length_append, List.length_nil]
    omega
  rw [hmin]
  show Option.map
      (fun p => (List.drop 1 (' ' :: ("filename=\"".toList ++ (fn ++ ['"']))), p.1, p.2))
      (splitAtClose (content ++ (closeTag ++ rest))) =
    some ("filename=\"".toList ++ (fn ++ ['"']), content, rest)
  rw [splitAtClose_append content hcontent rest]
  rfl


lemma scanArtifactsF_skip : ∀ (sep cs : List Char) (f : Nat),
    (∀ ch ∈ sep, ch ≠ '<') → (sep ++ cs).length < f →
    scanArtifactsF f (sep ++ cs) = scanArtifactsF (f - sep.length) cs := by
  intro sep
  induction sep with
  | nil =>
    intro cs f _ _
    simp
  | cons c sep' ih =>
    intro cs f h hf
    have hc : c ≠ '<' := h c (List.mem_cons_self c sep')
    cases f with
    | zero => simp at hf
    | succ f' =>
      show scanArtifactsF (f' + 1) (c :: (sep' ++ cs)) = _
      simp only [scanArtifactsF, tryMatch_head_none hc]
      rw [ih cs f' (fun ch hch => h ch (List.mem_cons_of_mem c hch))
        (by simp only [List.length_append, List.length_cons] at hf ⊢; omega)]
      congr 1
      simp only [List.length_cons]
      omega

lemma mkArtifactText_length (fn content : List Char) :
    (mkArtifactText fn content).length = 41 + fn.length + content.length := by
  simp [mkArtifactText, openTag, closeTag, List.length_append, List.length_cons]
  omega

lemma scan_blob : ∀ (files : List (List Char × List Char)) (seps : List (List Char))
    (f : Nat),
    (∀ p ∈ files, goodFile p) →
    (∀ sep ∈ seps, ∀ ch ∈ sep, ch ≠ '<') →
    (mkArtifactBlob files seps).length < f →
    scanArtifactsF f (mkArtifactBlob files seps) =
      files.map (fun p => ("filename=\"".toList ++ (p.1 ++ ['"']), p.2)) := by
  intro files
  induction files with
  | nil =>
    intro seps f _ hsep hf
    cases seps with
    | nil =>
      exact scanArtifactsF_nil f
    | cons sep _ =>
      show scanArtifactsF f sep = []
      have hsep' : ∀ ch ∈ sep, ch ≠ '<' := hsep sep (List.mem_cons_self _ _)
      have h0 : scanArtifactsF f (sep ++ []) = scanArtifactsF (f - sep.length) [] :=
        scanArtifactsF_skip sep [] f hsep' (by simpa using hf)
      rw [List.append_nil] at h0
      rw [h0, scanArtifactsF_nil]
  | cons p fs ih =>
    intro seps f hgood hsep hf
    obtain ⟨fn, c⟩ := p
    have hg : goodFile (fn, c) := hgood _ (List.mem_cons_self _ _)
    have hgood' : ∀ q ∈ fs, goodFile q := fun q hq => hgood q (List.mem_cons_of_mem _ hq)
    have hfn : ∀ ch ∈ fn, ch ≠ '>' := fun ch hch => (hg.2.2.1 ch hch).2
    have hc : ∀ ch ∈ c, ch ≠ '<' := hg.2.2.2
    have hstep : ∀ (g : Nat) (tail : List Char),
        (mkArtifactText fn c ++ tail).length < g →
        (∀ gtail, tail.length < gtail →
          scanArtifactsF gtail tail = fs.map (fun q => ("filename=\"".toList ++ (q.1 ++ ['"']), q.2))) →
        scanArtifactsF g (mkArtifactText fn c ++ tail) =
          ("filename=\"".toList ++ (fn ++ ['"']), c) ::
            fs.map (fun q => ("filename=\"".toList ++ (q.1 ++ ['"']), q.2)) := by
      intro g tail hg1 htail
      cases g with
      | zero => omega
      | succ g' =>
        simp only [scanArtifactsF, tryMatch_segment fn c tail hfn hc]
        rw [htail g' (by
          have := mkArtifactText_length fn c
          simp only [List.length_append] at hg1
          omega)]
    cases seps with
    | nil =>
      show scanArtifactsF f (mkArtifactText fn c ++ mkArtifactBlob fs []) = _
      exact hstep f (mkArtifactBlob fs []) hf
        (fun gtail hgt => ih [] gtail hgood' (by simp) hgt)
    | cons sep seps' =>
      have hsep1 : ∀ ch ∈ sep, ch ≠ '<' := hsep sep (List.mem_cons_self _ _)
      have hsep' : ∀ s ∈ seps', ∀ ch ∈ s, ch ≠ '<' :=
        fun s hs => hsep s (List.mem_cons_of_mem _ hs)
      have hb : mkArtifactBlob ((fn, c) :: fs) (sep :: seps') =
          sep ++ (mkArtifactText fn c ++ mkArtifactBlob fs seps') := by
        show sep ++ mkArtifactText fn c ++ mkArtifactBlob fs seps' =
          sep ++ (mkArtifactText fn c ++ mkArtifactBlob fs seps')
        rw [List.append_assoc]
      rw [hb] at hf ⊢
      rw [scanArtifactsF_skip sep _ f hsep1 hf]
      exact hstep _ (mkArtifactBlob fs seps')
        (by simp only [List.length_append] at hf ⊢; omega)
        (fun gtail hgt => ih seps' gtail hgood' hsep' hgt)

lemma parseAttrsF_succ (f : Nat) (cs : List Char) :
    parseAttrsF (f + 1) cs =
      (let w := cs.takeWhile isWordChar
       let giveUp : List (List Char × List Char) :=
         match cs with
         | [] => []
         | _ :: cs' => parseAttrsF f cs'
       match w, cs.drop w.length with
       | _ :: _, '=' :: '"' :: rest2 =>
         let v := rest2.takeWhile (fun c => c ≠ '"')
         match v, rest2.drop v.length with
         | _ :: _, '"' :: rest3 => (w, v) :: parseAttrsF f rest3
         | _, _ => giveUp
       | _, _ => giveUp) := rfl

lemma attrsToDict_filename {fn : List Char} (hne : fn ≠ [])
    (hq : ∀ ch ∈ fn, ch ≠ '"') :
    attrsToDict ("filename=\"".toList ++ (fn ++ ['"'])) = [("filename".toList, fn)] := by
  cases fn with
  | nil => exact absurd rfl hne
  | cons c0 fn' =>
    have hparse : parseAttrsF (("filename=\"".toList ++ ((c0 :: fn') ++ ['"'])).length + 1)
        ("filename=\"".toList ++ ((c0 :: fn') ++ ['"'])) =
        [("filename".toList, c0 :: fn')] := by
      rw [parseAttrsF_succ]
      dsimp only
      have hw : (("filename=\"".toList ++ ((c0 :: fn') ++ ['"']))).takeWhile isWordChar =
          ['f', 'i', 'l', 'e', 'n', 'a', 'm', 'e'] := rfl
      rw [hw]
      have hd : (("filename=\"".toList ++ ((c0 :: fn') ++ ['"']))).drop
          (['f', 'i', 'l', 'e', 'n', 'a', 'm', 'e'] : List Char).length =
          '=' :: '"' :: ((c0 :: fn') ++ ['"']) := rfl
      rw [hd]
      have hv : ((c0 :: fn') ++ ['"']).takeWhile (fun ch => ch ≠ '"') = c0 :: fn' := by
        apply takeWhile_append_stop
        · intro x hx
          simpa using hq x hx
        · decide
      have hdv : ((c0 :: fn') ++ ['"']).drop (c0 :: fn').length = ['"'] :=
        List.drop_left _ _
      split
      · rename_i head tail rest2 hw2 hr2
        injection hr2 with h1 hr2
        injection hr2 with h2 hr2
        subst hr2
        rw [hv, hdv]
        split
        · rename_i head2 tail2 rest3 hv2 hr3
          injection hr3 with h3 hr3
          subst hr3
          rw [parseAttrsF_nil]
          rfl
        · rename_i hno
          exact (hno c0 fn' [] rfl rfl).elim
      · rename_i hno
        exact (hno 'f' ['i', 'l', 'e', 'n', 'a', 'm', 'e'] ((c0 :: fn') ++ ['"']) rfl rfl).elim
    unfold attrsToDict
    rw [hparse]
    rfl

lemma extract_blob (files : List (List Char × List Char)) (seps : List (List Char))
    (hgood : ∀ p ∈ files, goodFile p)
    (hsep : ∀ sep ∈ seps, ∀ ch ∈ sep, ch ≠ '<') :
    extract_code_artifacts (mkArtifactBlob files seps) =
      files.map (fun p =>
        { type := "text".toList, filename := p.1, purpose := "unknown".toList,
          dependencies := none, complexity := "simple".toList,
          content := pyStrip p.2 : CodeArtifact }) := by
  unfold extract_code_artifacts scanArtifacts
  rw [scan_blob files seps _ hgood hsep (by omega)]
  rw [List.map_map]
  apply List.map_congr_left
  intro p hp
  obtain ⟨fn, c⟩ := p
  obtain ⟨hne, _, hfq, _⟩ := hgood _ hp
  dsimp only [Function.comp]
  rw [attrsToDict_filename hne (fun ch hch => (hfq ch hch).1)]
  rfl

lemma pyPathJoin_inj {base fn1 fn2 : List Char} (h1 : fn1.head? ≠ some '/')
    (h2 : fn2.head? ≠ some '/') (h : pyPathJoin base fn1 = pyPathJoin base fn2) :
    fn1 = fn2 := by
  unfold pyPathJoin at h
  rw [if_neg h1, if_neg h2] at h
  by_cases hb : base = []
  · rw [if_pos hb, if_pos hb] at h
    exact h
  · rw [if_neg hb, if_neg hb] at h
    by_cases hl : base.getLast? = some '/'
    · rw [if_pos hl, if_pos hl] at h
      exact List.append_cancel_left h
    · rw [if_neg hl, if_neg hl] at h
      have := List.append_cancel_left h
      injection this

lemma save_fold_paths (base : List Char) : ∀ (arts : List CodeArtifact)
    (acc : List (List Char)) (fs : FileSystem),
    (arts.foldl
      (fun acc a =>
        let file_path := pyPathJoin base a.filename
        (acc.1 ++ [file_path], fsWrite acc.2 file_path a.content)) (acc, fs)).1 =
      acc ++ arts.map (fun a => pyPathJoin base a.filename) := by
  intro arts
  induction arts with
  | nil =>
    intro acc fs
    simp
  | cons a arts' ih =>
    intro acc fs
    simp only [List.foldl_cons]
    exact (ih _ _).trans (by simp)

lemma save_fold_read_frame (base : List Char) : ∀ (arts : List CodeArtifact)
    (acc : List (List Char)) (fs : FileSystem) (path : List Char),
    (∀ a ∈ arts, pyPathJoin base a.filename ≠ path) →
    fsRead (arts.foldl
      (fun acc a =>
        let file_path := pyPathJoin base a.filename
        (acc.1 ++ [file_path], fsWrite acc.2 file_path a.content)) (acc, fs)).2 path =
      fsRead fs path := by
  intro arts
  induction arts with
  | nil =>
    intro acc fs path _
    rfl
  | cons a arts' ih =>
    intro acc fs path h
    have h0 : pyPathJoin base a.filename ≠ path := h a (List.mem_cons_self _ _)
    simp only [List.foldl_cons]
    refine (ih _ _ path (fun b hb => h b (List.mem_cons_of_mem _ hb))).trans ?_
    exact dictGet_insert_ne (fun he => h0 he.symm) a.content fs

lemma save_fold_read (base : List Char) : ∀ (arts : List CodeArtifact)
    (acc : List (List Char)) (fs : FileSystem),
    (∀ a ∈ arts, a.filename.head? ≠ some '/') →
    (arts.map (fun a => a.filename)).Nodup →
    ∀ a ∈ arts,
      fsRead (arts.foldl
        (fun acc a =>
          let file_path := pyPathJoin base a.filename
          (acc.1 ++ [file_path], fsWrite acc.2 file_path a.content)) (acc, fs)).2
        (pyPathJoin base a.filename) = some a.content := by
  intro arts
  induction arts with
  | nil =>
    intro acc fs _ _ a ha
    exact absurd ha (List.not_mem_nil a)
  | cons a0 arts' ih =>
    intro acc fs hrel hnd a ha
    have hrel' : ∀ b ∈ arts', b.filename.head? ≠ some '/' :=
      fun b hb => hrel b (List.mem_cons_of_mem _ hb)
    rw [List.map_cons, List.nodup_cons] at hnd
    rcases List.mem_cons.mp ha with rfl | ha'
    · simp only [List.foldl_cons]
      refine (save_fold_read_frame base arts' _ _ _ ?_).trans ?_
      · intro b hb hbp
        exact hnd.1 (List.mem_map.mpr ⟨b, hb, pyPathJoin_inj (hrel' b hb)
          (hrel a (List.mem_cons_self _ _)) hbp⟩)
      · exact dictGet_insert_self _ _ _
    · simp only [List.foldl_cons]
      exact ih _ _ hrel' hnd.2 a ha'

/-- C7 (amended): for a response text interleaving `N` well-formed
`<codeartifact filename="...">` segments (distinct relative filenames free of
`"`/`>`, contents free of `<`) with tag-free separators, extraction returns
exactly `N` artifacts in tag order carrying the segment filenames, and
materialization writes exactly the `N` paths `base_path/filename` in that
order, each file holding the `.strip()`ped content of its segment (the
whitespace strip being the amendment to the claim's "exactly the content
between the tags"). -/
theorem C7_artifact_roundtrip_amended
    (files : List (List Char × List Char)) (seps : List (List Char))
    (base : List Char) (fs0 : FileSystem)
    (hlen : seps.length = files.length + 1)
    (hgood : ∀ p ∈ files, goodFile p)
    (hsep : ∀ sep ∈ seps, ∀ ch ∈ sep, ch ≠ '<')
    (hnd : (files.map Prod.fst).Nodup) :
    (extract_code_artifacts (mkArtifactBlob files seps)).length = files.length ∧
    (extract_code_artifacts (mkArtifactBlob files seps)).map
        (fun a => (a.filename, a.content)) =
      files.map (fun p => (p.1, pyStrip p.2)) ∧
    (save_artifacts_to_files (extract_code_artifacts (mkArtifactBlob files seps))
        base fs0).1 = files.map (fun p => pyPathJoin base p.1) ∧
    ∀ p ∈ files,
      fsRead (save_artifacts_to_files
          (extract_code_artifacts (mkArtifactBlob files seps)) base fs0).2
        (pyPathJoin base p.1) = some (pyStrip p.2) := by
  have hex := extract_blob files seps hgood hsep
  refine ⟨?_, ?_, ?_, ?_⟩
  · rw [hex, List.length_map]
  · rw [hex, List.map_map]
    rfl
  · unfold save_artifacts_to_files
    rw [hex, save_fold_paths, List.nil_append, List.map_map]
    rfl
  · intro p hp
    unfold save_artifacts_to_files
    rw [hex]
    have hrel : ∀ a ∈ files.map (fun p =>
        { type := "text".toList, filename := p.1, purpose := "unknown".toList,
          dependencies := none, complexity := "simple".toList,
          content := pyStrip p.2 : CodeArtifact }), a.filename.head? ≠ some '/' := by
      intro a ha
      obtain ⟨q, hq, rfl⟩ := List.mem_map.mp ha
      exact (hgood q hq).2.1
    have hnd' : ((files.map (fun p =>
        { type := "text".toList, filename := p.1, purpose := "unknown".toList,
          dependencies := none, complexity := "simple".toList,
          content := pyStrip p.2 : CodeArtifact })).map
          (fun a => a.filename)).Nodup := by
      rw [List.map_map]
      exact hnd
    exact save_fold_read base _ [] fs0 hrel hnd' _ (List.mem_map.mpr ⟨p, hp, rfl⟩)

theorem C7_artifact_roundtrip_amended_witness :
    (extract_code_artifacts (mkArtifactBlob
        [("a.txt".toList, " hi ".toList), ("b.txt".toList, "x".toList)]
        ["pre ".toList, "\n".toList, " post".toList])).length =
      ([("a.txt".toList, " hi ".toList), ("b.txt".toList, "x".toList)] :
        List (List Char × List Char)).length ∧
    (extract_code_artifacts (mkArtifactBlob
        [("a.txt".toList, " hi ".toList), ("b.txt".toList, "x".toList)]
        ["pre ".toList, "\n".toList, " post".toList])).map
        (fun a => (a.filename, a.content)) =
      [("a.txt".toList, " hi ".toList), ("b.txt".toList, "x".toList)].map
        (fun p => (p.1, pyStrip p.2)) ∧
    (save_artifacts_to_files (extract_code_artifacts (mkArtifactBlob
        [("a.txt".toList, " hi ".toList), ("b.txt".toList, "x".toList)]
        ["pre ".toList, "\n".toList, " post".toList])) "/out".toList []).1 =
      [("a.txt".toList, " hi ".toList), ("b.txt".toList, "x".toList)].map
        (fun p => pyPathJoin "/out".toList p.1) ∧
    ∀ p ∈ ([("a.txt".toList, " hi ".toList), ("b.txt".toList, "x".toList)] :
        List (List Char × List Char)),
      fsRead (save_artifacts_to_files (extract_code_artifacts (mkArtifactBlob
          [("a.txt".toList, " hi ".toList), ("b.txt".toList, "x".toList)]
          ["pre ".toList, "\n".toList, " post".toList])) "/out".toList []).2
        (pyPathJoin "/out".toList p.1) = some (pyStrip p.2) :=
  C7_artifact_roundtrip_amended
    [("a.txt".toList, " hi ".toList), ("b.txt".toList, "x".toList)]
    ["pre ".toList, "\n".toList, " post".toList] "/out".toList [] rfl
    (by
      intro p hp
      fin_cases hp <;> exact ⟨by decide, by decide, by decide, by decide⟩)
    (by decide) (by decide)

end AgnoFC
